import Mathlib

set_option maxRecDepth 400000

set_option maxHeartbeats 8000000

/-!
Verification of the didwebnext DID method implementation.

The development shallowly embeds the repository's `src/data-integrity.ts`
module (JSON-LD canonicalization plumbing, hashing, and `createVerifyData`)
and, for the parts of the repository whose source is not available here
(the `method.ts` module exporting `createDID`, `updateDID` and `resolveDID`,
known only through its tests and the specification), a model built from the
specification's words.  Machine integers do not occur; SHA-256 is implemented
over natural numbers reduced modulo 2^32, and byte strings are lists of
naturals below 256.
-/

namespace SHA256

/-- Reduce a natural number to a 32-bit word. -/
def w32 (n : Nat) : Nat := n % 4294967296

/-- Rotate a 32-bit word right by `n` bits. -/
def rotr (n x : Nat) : Nat := w32 ((x >>> n) ||| (x <<< (32 - n)))

def bsig0 (x : Nat) : Nat := (rotr 2 x) ^^^ (rotr 13 x) ^^^ (rotr 22 x)

def bsig1 (x : Nat) : Nat := (rotr 6 x) ^^^ (rotr 11 x) ^^^ (rotr 25 x)

def ssig0 (x : Nat) : Nat := (rotr 7 x) ^^^ (rotr 18 x) ^^^ (x >>> 3)

def ssig1 (x : Nat) : Nat := (rotr 17 x) ^^^ (rotr 19 x) ^^^ (x >>> 10)

def ch (x y z : Nat) : Nat := (x &&& y) ^^^ ((x ^^^ 4294967295) &&& z)

def maj (x y z : Nat) : Nat := (x &&& z) ^^^ (y &&& z) ^^^ (x &&& y)

/-- The SHA-256 round constants (FIPS 180-4), as decimal naturals. -/
def K : List Nat :=
  [1116352408, 1899447441, 3049323471, 3921009573,
   961987163, 1508970993, 2453635748, 2870763221,
   3624381080, 310598401, 607225278, 1426881987,
   1925078388, 2162078206, 2614888103, 3248222580,
   3835390401, 4022224774, 264347078, 604807628,
   770255983, 1249150122, 1555081692, 1996064986,
   2554220882, 2821834349, 2952996808, 3210313671,
   3336571891, 3584528711, 113926993, 338241895,
   666307205, 773529912, 1294757372, 1396182291,
   1695183700, 1986661051, 2177026350, 2456956037,
   2730485921, 2820302411, 3259730800, 3345764771,
   3516065817, 3600352804, 4094571909, 275423344,
   430227734, 506948616, 659060556, 883997877,
   958139571, 1322822218, 1537002063, 1747873779,
   1955562222, 2024104815, 2227730452, 2361852424,
   2428436474, 2756734187, 3204031479, 3329325298]

/-- Group a byte list into big-endian 32-bit words. -/
def toWords : List Nat → List Nat
  | b0 :: b1 :: b2 :: b3 :: rest =>
    (b0 * 16777216 + b1 * 65536 + b2 * 256 + b3) :: toWords rest
  | _ => []

/-- Produce the schedule words from a sliding window of the 16 most recent
words (`w0` the oldest): each emitted word is the oldest, and the window
shifts in `ssig1 w[i-2] + w[i-7] + ssig0 w[i-15] + w[i-16]`. -/
def schedAux (n w0 w1 w2 w3 w4 w5 w6 w7 w8 w9 w10 w11 w12 w13 w14 w15 : Nat) : List Nat :=
  match n with
  | 0 => []
  | m + 1 =>
    w0 :: schedAux m w1 w2 w3 w4 w5 w6 w7 w8 w9 w10 w11 w12 w13 w14 w15
      (w32 (ssig1 w14 + w9 + ssig0 w1 + w0))
termination_by structural n

/-- Extend the 16 block words to the 64 schedule words. -/
def schedule (ws : List Nat) : List Nat :=
  match ws with
  | [w0, w1, w2, w3, w4, w5, w6, w7, w8, w9, w10, w11, w12, w13, w14, w15] =>
    schedAux 64 w0 w1 w2 w3 w4 w5 w6 w7 w8 w9 w10 w11 w12 w13 w14 w15
  | _ => []

/-- The eight 32-bit working variables of the compression function. -/
structure St where
  a : Nat
  b : Nat
  c : Nat
  d : Nat
  e : Nat
  f : Nat
  g : Nat
  h : Nat
  deriving DecidableEq

/-- The SHA-256 initial hash value (FIPS 180-4), as decimal naturals. -/
def initSt : St :=
  ⟨1779033703, 3144134277, 1013904242, 2773480762,
   1359893119, 2600822924, 528734635, 1541459225⟩

/-- One compression round. -/
def round (s : St) (k w : Nat) : St :=
  let t1 := w32 (s.h + bsig1 s.e + ch s.e s.f s.g + k + w)
  let t2 := w32 (bsig0 s.a + maj s.a s.b s.c)
  { a := w32 (t1 + t2), b := s.a, c := s.b, d := s.c,
    e := w32 (s.d + t1), f := s.e, g := s.f, h := s.g }

def rounds (s : St) : List (Nat × Nat) → St
  | [] => s
  | (k, w) :: rest => rounds (round s k w) rest

/-- Add two states word-wise modulo 2^32. -/
def addSt (x y : St) : St :=
  ⟨w32 (x.a + y.a), w32 (x.b + y.b), w32 (x.c + y.c), w32 (x.d + y.d),
   w32 (x.e + y.e), w32 (x.f + y.f), w32 (x.g + y.g), w32 (x.h + y.h)⟩

/-- Compress one 64-byte block into the running state. -/
def compress (s : St) (block : List Nat) : St :=
  addSt s (rounds s (K.zip (schedule (toWords block))))

/-- `n`-byte big-endian encoding of a natural number. -/
def beBytes : Nat → Nat → List Nat
  | 0, _ => []
  | m + 1, v => beBytes m (v / 256) ++ [v % 256]

/-- SHA-256 padding: a `0x80` byte, zeros, and the 64-bit bit length. -/
def pad (ms : List Nat) : List Nat :=
  let len := ms.length
  ms ++ 128 :: (List.replicate ((64 - ((len + 9) % 64)) % 64) 0 ++ beBytes 8 (len * 8))

/-- Split a byte list into 64-byte chunks, with explicit fuel. -/
def chunksF : Nat → List Nat → List (List Nat)
  | 0, _ => []
  | _ + 1, [] => []
  | f + 1, l => l.take 64 :: chunksF f (l.drop 64)

/-- The four big-endian bytes of a 32-bit word. -/
def wb (w : Nat) : List Nat := [w / 16777216 % 256, w / 65536 % 256, w / 256 % 256, w % 256]

/-- The 32 digest bytes of a final state. -/
def digestBytes (s : St) : List Nat :=
  wb s.a ++ wb s.b ++ wb s.c ++ wb s.d ++ wb s.e ++ wb s.f ++ wb s.g ++ wb s.h

/-- SHA-256 of a byte list (bytes are naturals below 256).  The chunking
fuel `ms.length / 64 + 2` bounds the block count: the padded message has
`ms.length + 9` bytes rounded up to a multiple of 64. -/
def sha256 (ms : List Nat) : List Nat :=
  digestBytes ((chunksF (ms.length / 64 + 2) (pad ms)).foldl compress initSt)

end SHA256

namespace Bytes

/-- UTF-8 encoding of a single code point. -/
def utf8Char (c : Char) : List Nat :=
  let n := c.toNat
  if n < 128 then [n]
  else if n < 2048 then [192 + n / 64, 128 + n % 64]
  else if n < 65536 then [224 + n / 4096, 128 + (n / 64) % 64, 128 + n % 64]
  else [240 + n / 262144, 128 + (n / 4096) % 64, 128 + (n / 64) % 64, 128 + n % 64]

/-- UTF-8 bytes of a string. -/
def strBytes (s : String) : List Nat := s.data.flatMap utf8Char

end Bytes

namespace Multibase

/-- The base58btc alphabet. -/
def alphabet : List Char :=
  "123456789ABCDEFGHJKLMNPQRSTUVWXYZabcdefghijkmnopqrstuvwxyz".data

def alphaChar (n : Nat) : Char := alphabet.getD n '1'

/-- Multibase rendering of a digest.  Modelled from the spec: the spec's §4.A
allows base58btc with a `z` prefix "or another fixed codec consistent
throughout", and its §6 fixes the encoded SCID (which *is* the genesis entry
hash) at 24 multibase characters; the model therefore renders a digest as `z`
followed by 23 base58-alphabet characters derived from the leading digest
bytes. -/
def multibase (bytes : List Nat) : String :=
  String.mk ('z' :: (bytes.take 23).map (fun b => alphaChar (b % 58)))

end Multibase

namespace DataIntegrity

/-- JavaScript values as the source's `data-integrity.ts` manipulates them:
JSON values plus `undefined` (the value of an absent property read). -/
inductive Json where
  | null
  | undefined
  | bool (b : Bool)
  | num (n : Rat)
  | str (s : String)
  | arr (elems : List Json)
  | obj (fields : List (String × Json))

/-- Property lookup on an object's field list (JS objects have unique keys;
the first binding wins, as `obj[k]` does). -/
def getField (k : String) : List (String × Json) → Option Json
  | [] => none
  | (k', v) :: rest => if k' = k then some v else getField k rest

/-- `j[k]` when `j` is an object, `none` otherwise. -/
def getKey (j : Json) (k : String) : Option Json :=
  match j with
  | .obj kvs => getField k kvs
  | _ => none

/-- `j[k]` as a JS expression: an absent property reads as `undefined`. -/
def jsGet (j : Json) (k : String) : Json := (getKey j k).getD .undefined

/-- JS truthiness of a value (`NaN` does not arise: numbers are rationals). -/
def truthy : Json → Bool
  | .null => false
  | .undefined => false
  | .bool b => b
  | .num n => n != 0
  | .str s => s != ""
  | .arr _ => true
  | .obj _ => true

/-- `obj[k] = v`: overwrite an existing binding in place (key order kept),
else append the new key, as JS property assignment does. -/
def setField (k : String) (v : Json) : List (String × Json) → List (String × Json)
  | [] => [(k, v)]
  | (k', v') :: rest => if k' = k then (k, v) :: rest else (k', v') :: setField k v rest

/-- Property assignment `j[k] = v` on an object (identity on non-objects,
which the source never assigns into). -/
def setKey (j : Json) (k : String) (v : Json) : Json :=
  match j with
  | .obj kvs => .obj (setField k v kvs)
  | other => other

mutual

/-- A deterministic rendering of a value, standing in for the external
`jsonld` library's URDNA2015 canonical N-Quads output.  No claim depends on
the content of the canonical form, only on it being a fixed function of the
input. -/
def serJ : Json → String
  | .null => "null"
  | .undefined => "undefined"
  | .bool b => if b then "true" else "false"
  | .num n => toString n.num ++ "/" ++ toString n.den
  | .str s => "\"" ++ s ++ "\""
  | .arr xs => "[" ++ serL xs ++ "]"
  | .obj kvs => "\x7b" ++ serF kvs ++ "\x7d"

def serL : List Json → String
  | [] => ""
  | [x] => serJ x
  | x :: y :: xs => serJ x ++ "," ++ serL (y :: xs)

def serF : List (String × Json) → String
  | [] => ""
  | [(k, v)] => "\"" ++ k ++ "\":" ++ serJ v
  | (k, v) :: y :: xs => "\"" ++ k ++ "\":" ++ serJ v ++ "," ++ serF (y :: xs)

end

/-- The context URL strings named by `@context` entries of one object. -/
def ctxEntry : Json → List String
  | .str s => [s]
  | _ => []

def ctxOfFields (kvs : List (String × Json)) : List String :=
  match getField "@context" kvs with
  | some (.str s) => [s]
  | some (.arr xs) => xs.flatMap ctxEntry
  | _ => []

mutual

/-- All remote context URLs a document references, at any nesting depth:
these are exactly the URLs the `jsonld` library hands to the document loader
while canonicalizing. -/
def allCtxJ : Json → List String
  | .arr xs => allCtxL xs
  | .obj kvs => ctxOfFields kvs ++ allCtxF kvs
  | _ => []

def allCtxL : List Json → List String
  | [] => []
  | x :: xs => allCtxJ x ++ allCtxL xs

def allCtxF : List (String × Json) → List String
  | [] => []
  | (_, v) :: kvs => allCtxJ v ++ allCtxF kvs

end

def referencedContexts (j : Json) : List String := allCtxJ j

/-- Context URL constants of the npm packages the source imports
(`did-context`, `ed25519-signature-2020-context`, the Digital Bazaar security,
multikey and data-integrity context packages); the URL values are those
packages' published constants. -/
def DID_CONTEXT_URL : String := "https://www.w3.org/ns/did/v1"

def ED25519_2020_CONTEXT_URL : String := "https://w3id.org/security/suites/ed25519-2020/v1"

def SECURITY_CONTEXT_V1_URL : String := "https://w3id.org/security/v1"

def SECURITY_CONTEXT_V2_URL : String := "https://w3id.org/security/v2"

def DATA_INTEGRITY_CONTEXT_URL : String := "https://w3id.org/security/data-integrity/v1"

def MULTIKEY_CONTEXT_URL : String := "https://w3id.org/security/multikey/v1"

def LINKED_VP_CONTEXT_URL : String := "https://identity.foundation/linked-vp/contexts/v1"

def DIDCOMM_CONTEXT_URL : String := "https://didcomm.org/messaging/v2"

/-- The linked-VP context document registered inline in the source. -/
def linkedVpContext : Json :=
  .obj [("@context", .arr [
    .obj [("@version", .num 1.1),
          ("@protected", .bool true),
          ("LinkedVerifiablePresentation",
           .str "https://identity.foundation/linked-vp/contexts/v1#LinkedVerifiablePresentation")]])]

/-- The DIDComm messaging context document registered inline in the source. -/
def didcommContext : Json :=
  .obj [("@context", .obj [
    ("@version", .num 1.1),
    ("@protected", .bool true),
    ("DIDCommMessaging", .str "https://didcomm.org/messaging/v2/#DIDCommMessaging"),
    ("accept", .str "https://didcomm.org/messaging/v2/#accept"),
    ("routingKeys", .str "https://didcomm.org/messaging/v2/#routingKeys"),
    ("uri", .str "https://didcomm.org/messaging/v2/#uri")])]

/-- The static document-loader table, one entry per `jdl.addStatic` call of
the source, in source order.  The four npm-packaged context documents are
stubbed with `Json.null`: their contents live in external packages, and no
claim inspects a loaded context's body, only whether the URL resolves. -/
def jdl : List (String × Json) :=
  [(DID_CONTEXT_URL, Json.null),
   (ED25519_2020_CONTEXT_URL, Json.null),
   (SECURITY_CONTEXT_V1_URL, Json.null),
   (SECURITY_CONTEXT_V2_URL, Json.null),
   (DATA_INTEGRITY_CONTEXT_URL, Json.null),
   (MULTIKEY_CONTEXT_URL, Json.null),
   (LINKED_VP_CONTEXT_URL, linkedVpContext),
   (DIDCOMM_CONTEXT_URL, didcommContext)]

/-- `jdl.build()`: resolve a context URL against the static table only. -/
def documentLoader (url : String) : Option Json := getField url jdl

/-- Failures surfaced by canonicalization. -/
inductive JsonLdErr where
  | contextResolution
  deriving DecidableEq

/-- `canonize`: URDNA2015 canonicalization through the static document
loader.  The external `jsonld` library is modelled at its interface: every
remote context URL the document references is resolved through
`documentLoader`, an unresolvable one aborts with a context-resolution
error, and otherwise a deterministic canonical form is produced. -/
def canonize (input : Json) : Except JsonLdErr String :=
  if (referencedContexts input).all (fun u => (documentLoader u).isSome)
  then .ok (serJ input)
  else .error .contextResolution

/-- The three signature-output keys the source strips from proof options. -/
def sigKeys : List String := ["jws", "signatureValue", "proofValue"]

def removeFields (ks : List String) (kvs : List (String × Json)) : List (String × Json) :=
  kvs.filter (fun kv => !(ks.contains kv.1))

/-- `canonizeProof`: destructure `jws`, `signatureValue` and `proofValue` out
of the proof and canonize the rest (the rest-spread keeps the remaining
properties in insertion order).  JS rest-destructuring of a non-null
primitive yields an empty rest object; the `null`/`undefined` `TypeError`
case is unreachable in the source and not modelled. -/
def canonizeProof (proof : Json) : Except JsonLdErr String :=
  match proof with
  | .obj kvs => canonize (.obj (removeFields sigKeys kvs))
  | _ => canonize (.obj [])

/-- `hash`: SHA-256 of the UTF-8 bytes of a string, as a byte list. -/
def hash (input : String) : List Nat := SHA256.sha256 (Bytes.strBytes input)

/-- The `@context` defaulting step of `createVerifyData`: the source executes
`if (!proof['@context']) proof['@context'] = document['@context']`, mutating
the caller's proof object; the mutation is modelled by returning the updated
object. -/
def contextDefault (document proof : Json) : Json :=
  if truthy (jsGet proof "@context") then proof
  else setKey proof "@context" (jsGet document "@context")

/-- `createVerifyData`: default the proof's `@context`, canonize the proof
options and the document, and concatenate the two SHA-256 digests, proof-
options digest first.  The returned pair carries the (possibly mutated)
proof object alongside the verify data. -/
def createVerifyData (document proof : Json) : Except JsonLdErr (Json × List Nat) :=
  match canonizeProof (contextDefault document proof), canonize document with
  | .error e, _ => .error e
  | _, .error e => .error e
  | .ok c14nProofOptions, .ok c14nDocument =>
    .ok (contextDefault document proof, hash c14nProofOptions ++ hash c14nDocument)

def exDoc : Json := .obj [("@context", .str DID_CONTEXT_URL), ("id", .str "did:example:123")]

def exProof : Json := .obj [("type", .str "DataIntegrityProof"), ("proofValue", .str "z123")]

def exBadDoc : Json := .obj [("@context", .str "https://example.com/unknown/v1")]

def exProofFields : List (String × Json) :=
  [("type", .str "DataIntegrityProof"), ("jws", .str "zsig"), ("created", .str "now")]

/-- Read a string value out of a JS value. -/
def asStr : Json → Option String
  | .str s => some s
  | _ => none

def cexDoc : Json := .obj [("@context", .str DID_CONTEXT_URL)]

def cexProof : Json := .obj [("@context", .str ""), ("type", .str "DataIntegrityProof")]

end DataIntegrity

namespace DIDMethod

/-- Modelled from the spec: the `METHOD` constant (§6), "short string
identifier for this DID method".  Its value lives in the absent `method.ts`;
any fixed colon-free string models it. -/
def METHOD : String := "webnext"

/-- Modelled from the spec: the `PROTOCOL` log-format version string carried
in the genesis patch `method` field; the test suite pins it to
`did:<METHOD>:1`. -/
def PROTOCOL : String := "did:" ++ METHOD ++ ":1"

/-- Modelled from the spec (§9): the distinctive SCID placeholder sentinel. -/
def PLACEHOLDER : String := "\x7bSCID\x7d"

/-- The role of a verification method in the document (§3, the VM `type`). -/
inductive VMRole where
  | authentication
  | assertionMethod
  | keyAgreement
  | capabilityInvocation
  | capabilityDelegation
  deriving DecidableEq

/-- The controller of a verification method: the enclosing document's DID
(the default) or an external DID string. -/
inductive ControllerRef where
  | selfRef
  | external (did : String)
  deriving DecidableEq

/-- A verification method as carried in a document; its `id` is derived per
§3 (`{controller}#{last-8-of-publicKeyMultibase}`), not stored. -/
structure VM where
  type : VMRole
  publicKeyMultibase : String
  controller : ControllerRef
  deriving DecidableEq

structure Service where
  id : String
  type : String
  serviceEndpoint : String
  deriving DecidableEq

/-- A Data-Integrity proof block (§4.B). -/
structure DIProof where
  type : String
  cryptosuite : String
  created : Nat
  verificationMethod : String
  proofPurpose : String
  proofValue : String
  deriving DecidableEq

/-- Modelled from the spec (§3): a DID document.  Timestamps are naturals
(ISO-8601 UTC instants with their order); the document's `id` string is
derived from `scid` and `domain` so that the spec's placeholder substitution
(§4.D.5: "substitute `<PLACEHOLDER>` with `h₀` throughout ... recompute VM
ids and embedded references accordingly") is the exact structural operation
of replacing the `scid` component. -/
structure DIDDoc where
  context : List String
  scid : String
  domain : Option String
  controller : List String
  alsoKnownAs : List String
  verificationMethod : List VM
  service : List Service
  proof : Option DIProof
  deriving DecidableEq

/-- The DID string.  Modelled from the spec and the test suite: with a
domain the DID has four colon segments, contains the domain verbatim (dots
preserved) and ends with the 24-character SCID, so the domain precedes the
SCID: `did:<METHOD>:<domain>:<scid>`; without a domain it is
`did:<METHOD>:<scid>`. -/
def didString (scid : String) (domain : Option String) : String :=
  match domain with
  | none => "did:" ++ METHOD ++ ":" ++ scid
  | some d => "did:" ++ METHOD ++ ":" ++ d ++ ":" ++ scid

def docId (d : DIDDoc) : String := didString d.scid d.domain

def lastChars (n : Nat) (s : String) : String :=
  String.mk (s.data.drop (s.data.length - n))

/-- `createVMID` (exported by the absent `method.ts`; §6 verification-method
ID syntax): `{controller}#{last 8 characters of publicKeyMultibase}`. -/
def createVMID (pk : String) (controller : String) : String :=
  controller ++ "#" ++ lastChars 8 pk

def controllerStr (did : String) : ControllerRef → String
  | .selfRef => did
  | .external c => c

def vmIdStr (did : String) (vm : VM) : String :=
  createVMID vm.publicKeyMultibase (controllerStr did vm.controller)

/-- The role array for role `r` (§4.C.4): the VMs of that type. -/
def roleVMs (d : DIDDoc) (r : VMRole) : List VM :=
  d.verificationMethod.filter (fun v => v.type == r)

def authenticationOf (d : DIDDoc) : List VM := roleVMs d .authentication

def qs (s : String) : String := "\"" ++ s ++ "\""

def roleName : VMRole → String
  | .authentication => "authentication"
  | .assertionMethod => "assertionMethod"
  | .keyAgreement => "keyAgreement"
  | .capabilityInvocation => "capabilityInvocation"
  | .capabilityDelegation => "capabilityDelegation"

def serList (xs : List String) : String := "[" ++ String.intercalate "," xs ++ "]"

def serVM (did : String) (v : VM) : String :=
  "\x7b" ++ qs (vmIdStr did v) ++ "," ++ qs (roleName v.type) ++ "," ++
    qs (controllerStr did v.controller) ++ "," ++ qs v.publicKeyMultibase ++ "\x7d"

def serService (s : Service) : String :=
  "\x7b" ++ qs s.id ++ "," ++ qs s.type ++ "," ++ qs s.serviceEndpoint ++ "\x7d"

/-- A role-array entry (§4.C.4): embed the record when the controller is the
document itself, else reference it by id string. -/
def serVMRef (did : String) (v : VM) : String :=
  if v.controller == ControllerRef.selfRef then serVM did v else qs (vmIdStr did v)

/-- Modelled from the spec: the canonical form of an (unsigned) document —
the model's stand-in for URDNA2015 canonicalization of the rendered JSON-LD
document, a fixed deterministic function of the document's content with all
derived ids and role arrays rendered.  The `proof` field is never part of
the canonical form (§4.B signs the unsigned document). -/
def canonDoc (d : DIDDoc) : String :=
  let did := docId d
  "\x7b" ++ serList (d.context.map qs) ++ "," ++ qs did ++ "," ++
    serList (d.controller.map qs) ++ "," ++ serList (d.alsoKnownAs.map qs) ++ "," ++
    serList (d.verificationMethod.map (serVM did)) ++ "," ++
    serList ((roleVMs d .authentication).map (serVMRef did)) ++ "," ++
    serList ((roleVMs d .assertionMethod).map (serVMRef did)) ++ "," ++
    serList ((roleVMs d .keyAgreement).map (serVMRef did)) ++ "," ++
    serList (d.service.map serService) ++ "\x7d"

/-- A log entry's patch.  Modelled from the spec: §4.D leaves the patch
format open provided it is fixed and deterministic; the model uses the §9
"safest choice": full-state replacement after genesis, with the genesis
patch additionally carrying `method` and `scid`. -/
structure Patch where
  method : Option String
  scid : Option String
  doc : DIDDoc
  deriving DecidableEq

def serOpt : Option String → String
  | none => "null"
  | some s => qs s

def canonPatch (p : Patch) : String :=
  "\x7b" ++ serOpt p.method ++ "," ++ serOpt p.scid ++ "," ++ canonDoc p.doc ++ "\x7d"

/-- A log entry: the positional 5-tuple of §3. -/
structure LogEntry where
  entryHash : String
  versionId : Nat
  versionTime : Nat
  patch : Patch
  proof : DIProof
  deriving DecidableEq

/-- `entryHash = multibase(SHA-256(canonicalize([previousEntryHash, patch])))`
(§3); for the genesis entry the previous hash is the empty string. -/
def entryHashOf (prev : String) (p : Patch) : String :=
  Multibase.multibase (SHA256.sha256 (Bytes.strBytes
    ("[" ++ qs prev ++ "," ++ canonPatch p ++ "]")))

/-- The resolver-side reverse substitution (§4.E.2): put the placeholder
back in place of the patch's extracted SCID wherever that SCID occurs. -/
def genesisForm (p : Patch) : Patch :=
  match p.scid with
  | some s =>
    { p with scid := some PLACEHOLDER,
             doc := if p.doc.scid = s then { p.doc with scid := PLACEHOLDER } else p.doc }
  | none => p

def genesisHashOf (p : Patch) : String := entryHashOf "" (genesisForm p)

/-- The canonical form of a proof's options: every field except the
signature output `proofValue` (§4.A `canonicalizeProofOptions`). -/
def canonProofOptions (p : DIProof) : String :=
  "\x7b" ++ qs p.type ++ "," ++ qs p.cryptosuite ++ "," ++ toString p.created ++ "," ++
    qs p.verificationMethod ++ "," ++ qs p.proofPurpose ++ "\x7d"

/-- `verifyData = hash(canonicalizeProofOptions(proof)) || hash(canonicalize(D))`
(§4.B.2). -/
def verifyDataOf (doc : DIDDoc) (p : DIProof) : List Nat :=
  SHA256.sha256 (Bytes.strBytes (canonProofOptions p)) ++
    SHA256.sha256 (Bytes.strBytes (canonDoc doc))

/-- Modelled from the spec: Ed25519 signing, an external primitive out of
scope (§1); modelled as a deterministic function of the signing key's public
encoding and the message, with verification recomputing it.  No claim needs
unforgeability, only that verification succeeds exactly on the value signing
produced over the same data with the same key. -/
def ed25519Sign (pk : String) (msg : List Nat) : List Nat :=
  SHA256.sha256 (Bytes.strBytes ("ed25519:" ++ pk) ++ msg)

/-- The error taxonomy of §7 (restricted to the kinds the model can hit). -/
inductive ResErr where
  | scidMismatch
  | hashMismatch
  | versionGap
  | timeRegression
  | proofInvalid
  | unauthorizedKey
  | unknownVerificationMethod
  | invalidState
  deriving DecidableEq

def purposeRole : String → Option VMRole
  | "authentication" => some .authentication
  | "assertionMethod" => some .assertionMethod
  | "keyAgreement" => some .keyAgreement
  | "capabilityInvocation" => some .capabilityInvocation
  | "capabilityDelegation" => some .capabilityDelegation
  | _ => none

/-- §4.B proof verification: resolve `proof.verificationMethod` among the
authorizing document's verification methods, require its role to match the
proof purpose, recompute the verify data over the signed document, and check
the signature.  Per §2 an entry is "signed by a key authorized by the
*previous* document", so the authorizing document is the state before the
entry (for genesis, the genesis state itself). -/
def verifyProof (authDoc signedDoc : DIDDoc) (p : DIProof) : Except ResErr Unit :=
  match authDoc.verificationMethod.find?
      (fun vm => vmIdStr (docId authDoc) vm == p.verificationMethod) with
  | none => .error .unknownVerificationMethod
  | some vm =>
    match purposeRole p.proofPurpose with
    | none => .error .unauthorizedKey
    | some r =>
      if vm.type = r then
        if p.proofValue =
            Multibase.multibase (ed25519Sign vm.publicKeyMultibase (verifyDataOf signedDoc p))
        then .ok () else .error .proofInvalid
      else .error .unauthorizedKey

/-- Apply a patch (full-state replacement); the document state carried by a
patch is always unsigned. -/
def applyPatch (p : Patch) : DIDDoc := { p.doc with proof := none }

/-- A caller-supplied verification-method record (§4.C inputs). -/
structure VMSpec where
  type : VMRole
  publicKeyMultibase : String
  controller : Option String
  deriving DecidableEq

def toVM (v : VMSpec) : VM :=
  { type := v.type, publicKeyMultibase := v.publicKeyMultibase,
    controller := match v.controller with | none => .selfRef | some c => .external c }

structure CreateOpts where
  VMs : List VMSpec
  domain : Option String
  controllers : List String
  services : List Service
  alsoKnownAs : List String
  contexts : List String
  deriving DecidableEq

/-- The dedup key of a VM: its controller reference and id suffix.  §4.C.3
dedups by derived id; the structural key renders the same id exactly when
the key matches, except in the pathological case of an external controller
string equal to the enclosing DID, and keeps the builder independent of the
SCID (as the placeholder substitution requires). -/
def vmKey (v : VM) : ControllerRef × String := (v.controller, lastChars 8 v.publicKeyMultibase)

def dedupVMs (seen : List (ControllerRef × String)) : List VM → List VM
  | [] => []
  | v :: vs =>
    if seen.contains (vmKey v) then dedupVMs seen vs
    else v :: dedupVMs (vmKey v :: seen) vs

/-- §4.C document builder: DID/v1 first in contexts (deduplicated), VMs
deduplicated by id, the given controllers, services and alsoKnownAs, and no
proof. -/
def buildDoc (scid : String) (o : CreateOpts) : DIDDoc :=
  { context := (DataIntegrity.DID_CONTEXT_URL :: o.contexts).eraseDups,
    scid := scid,
    domain := o.domain,
    controller := o.controllers,
    alsoKnownAs := o.alsoKnownAs,
    verificationMethod := dedupVMs [] (o.VMs.map toVM),
    service := o.services,
    proof := none }

structure Meta where
  versionId : Nat
  versionTime : Nat
  created : Nat
  updated : Nat
  deactivated : Bool
  deriving DecidableEq

structure Resolved where
  did : String
  doc : DIDDoc
  meta : Meta
  deriving DecidableEq

structure DIDResult where
  did : String
  doc : DIDDoc
  meta : Meta
  log : List LogEntry
  deriving DecidableEq

/-- Construct the §4.B proof over `signedDoc`, signed by `vm` whose id is
rendered against the authorizing document's DID. -/
def makeProof (authDocId : String) (signedDoc : DIDDoc) (vm : VM) (time : Nat) : DIProof :=
  let pOpts : DIProof :=
    { type := "DataIntegrityProof", cryptosuite := "eddsa-jcs-2022", created := time,
      verificationMethod := vmIdStr authDocId vm, proofPurpose := "authentication",
      proofValue := "" }
  { pOpts with proofValue :=
      Multibase.multibase (ed25519Sign vm.publicKeyMultibase (verifyDataOf signedDoc pOpts)) }

/-- `createDID` (§4.D genesis).  Modelled from the spec: build the
placeholder document, hash the placeholder patch to obtain the SCID,
substitute, sign with the first authentication key of the final document
(erroring with `InvalidState` when there is none, §7), and emit the
single-entry log.  The caller-supplied clock instant is an explicit
parameter (§9 time-source note). -/
def createDID (o : CreateOpts) (time : Nat) : Except ResErr DIDResult :=
  let p0 : Patch := { method := some PROTOCOL, scid := some PLACEHOLDER,
                      doc := buildDoc PLACEHOLDER o }
  let h0 := entryHashOf "" p0
  let d0 := buildDoc h0 o
  match (authenticationOf d0).head? with
  | none => .error .invalidState
  | some k =>
    let prf := makeProof (docId d0) d0 k time
    match verifyProof d0 d0 prf with
    | .error e => .error e
    | .ok _ =>
      let pf : Patch := { method := some PROTOCOL, scid := some h0, doc := d0 }
      .ok { did := docId d0, doc := { d0 with proof := some prf },
            meta := { versionId := 1, versionTime := time, created := time, updated := time,
                      deactivated := (authenticationOf d0).isEmpty },
            log := [{ entryHash := h0, versionId := 1, versionTime := time,
                      patch := pf, proof := prf }] }

/-- §4.E steps 1–4: check the genesis entry hash against the recomputed
placeholder-form hash (`SCIDMismatch` otherwise), apply the genesis patch,
and verify the genesis proof against the resulting document. -/
def resolveGenesis (e : LogEntry) : Except ResErr DIDDoc :=
  match e.patch.scid with
  | none => .error .scidMismatch
  | some _ =>
    if e.entryHash = genesisHashOf e.patch then
      match verifyProof (applyPatch e.patch) (applyPatch e.patch) e.proof with
      | .error err => .error err
      | .ok _ => .ok (applyPatch e.patch)
    else .error .scidMismatch

/-- §4.E step 5, one entry at a time: check the version counter
(`VersionGap`), the strict time order (`TimeRegression`), the hash chain
(`HashMismatch`), apply the patch and verify the proof against the new
state with the key authorized by the previous state. -/
def replayEntries (prev : LogEntry) (doc : DIDDoc) : List LogEntry → Except ResErr (LogEntry × DIDDoc)
  | [] => .ok (prev, doc)
  | e :: es =>
    if e.versionId = prev.versionId + 1 then
      if prev.versionTime < e.versionTime then
        if e.entryHash = entryHashOf prev.entryHash e.patch then
          match verifyProof doc (applyPatch e.patch) e.proof with
          | .error err => .error err
          | .ok _ => replayEntries e (applyPatch e.patch) es
        else .error .hashMismatch
      else .error .timeRegression
    else .error .versionGap

/-- `resolveDID` (§4.E): replay the whole log and emit the final document
(patches carry unsigned state, so it has no proof) plus metadata. -/
def resolveDID (log : List LogEntry) : Except ResErr Resolved :=
  match log with
  | [] => .error .invalidState
  | e0 :: rest =>
    match resolveGenesis e0 with
    | .error err => .error err
    | .ok d0 =>
      match replayEntries e0 d0 rest with
      | .error err => .error err
      | .ok (le, dN) =>
        .ok { did := docId dN, doc := dN,
              meta := { versionId := le.versionId, versionTime := le.versionTime,
                        created := e0.versionTime, updated := le.versionTime,
                        deactivated := (authenticationOf dN).isEmpty } }

structure UpdateOpts where
  authKey : VMSpec
  vms : List VMSpec
  services : Option (List Service)
  contexts : Option (List String)
  controllers : Option (List String)
  alsoKnownAs : Option (List String)
  domain : Option String
  deriving DecidableEq

/-- `updateDID` (§4.D update).  Modelled from the spec: resolve the current
log, reject updates on a deactivated log (`InvalidState`, §4.E terminal
state) and non-increasing clock instants, build the new document with the
SAME scid and the updated fields (an omitted field keeps the previous
value; the test suite shows an omitted domain keeps the current domain),
require the signing key to be an authentication key of the previous document
and its proof to verify against it (§4.D.2), and append the chained entry. -/
def updateDID (log : List LogEntry) (o : UpdateOpts) (time : Nat) : Except ResErr DIDResult :=
  match resolveDID log with
  | .error err => .error err
  | .ok r =>
    if r.meta.deactivated then .error .invalidState
    else
      match log.getLast? with
      | none => .error .invalidState
      | some prev =>
        if time ≤ prev.versionTime then .error .timeRegression
        else
          let dPrev := r.doc
          let newOpts : CreateOpts :=
            { VMs := o.vms,
              domain := (match o.domain with | some d => some d | none => dPrev.domain),
              controllers := o.controllers.getD dPrev.controller,
              services := o.services.getD dPrev.service,
              alsoKnownAs := o.alsoKnownAs.getD dPrev.alsoKnownAs,
              contexts := o.contexts.getD dPrev.context }
          let dNew := buildDoc dPrev.scid newOpts
          match (authenticationOf dPrev).find?
              (fun vm => vm.publicKeyMultibase == o.authKey.publicKeyMultibase) with
          | none => .error .unauthorizedKey
          | some k =>
            let prf := makeProof (docId dPrev) dNew k time
            match verifyProof dPrev dNew prf with
            | .error err => .error err
            | .ok _ =>
              let patch : Patch := { method := none, scid := none, doc := dNew }
              .ok { did := docId dNew, doc := { dNew with proof := some prf },
                    meta := { versionId := prev.versionId + 1, versionTime := time,
                              created := r.meta.created, updated := time,
                              deactivated := (authenticationOf dNew).isEmpty },
                    log := log ++ [{ entryHash := entryHashOf prev.entryHash patch,
                                     versionId := prev.versionId + 1, versionTime := time,
                                     patch := patch, proof := prf }] }

/-- A sequence of `updateDID` calls, each at its own clock instant. -/
def applyUpdates : List LogEntry → List (UpdateOpts × Nat) → Except ResErr (List LogEntry)
  | log, [] => .ok log
  | log, (o, t) :: us =>
    match updateDID log o t with
    | .error err => .error err
    | .ok u => applyUpdates u.log us

instance : Inhabited DIProof :=
  ⟨{ type := "", cryptosuite := "", created := 0, verificationMethod := "",
     proofPurpose := "", proofValue := "" }⟩

instance : Inhabited DIDDoc :=
  ⟨{ context := [], scid := "", domain := none, controller := [], alsoKnownAs := [],
     verificationMethod := [], service := [], proof := none }⟩

instance : Inhabited Patch := ⟨{ method := none, scid := none, doc := default }⟩

instance : Inhabited LogEntry :=
  ⟨{ entryHash := "", versionId := 0, versionTime := 0, patch := default, proof := default }⟩

instance : Inhabited Meta :=
  ⟨{ versionId := 0, versionTime := 0, created := 0, updated := 0, deactivated := false }⟩

instance : Inhabited DIDResult := ⟨{ did := "", doc := default, meta := default, log := [] }⟩

/-- Replace the element at position `i` by `f` of it (identity out of range):
the single-field tampering operations on a log are instances of this. -/
def setAt {α : Type} : List α → Nat → (α → α) → List α
  | [], _, _ => []
  | x :: xs, 0, f => f x :: xs
  | x :: xs, n + 1, f => x :: setAt xs n f

/-- The entry preceding position `k` of `es` when the entry before `es` is
`p`. -/
def prevEntry (p : LogEntry) (es : List LogEntry) : Nat → LogEntry
  | 0 => p
  | j + 1 => es.getD j default

/-- A concrete authentication key, assertion key and rotation key. -/
def k1 : VMSpec := { type := .authentication, publicKeyMultibase := "z6Mk0001", controller := none }

def k2 : VMSpec := { type := .assertionMethod, publicKeyMultibase := "z6Mk0002", controller := none }

def k3 : VMSpec := { type := .authentication, publicKeyMultibase := "z6Mk0003", controller := none }

/-- Concrete creation options: one authentication and one assertion key. -/
def exOpts : CreateOpts :=
  { VMs := [k1, k2], domain := none, controllers := [], services := [],
    alsoKnownAs := [], contexts := [] }

/-- A concrete update signed by `k1`, rotating to `k3`. -/
def exUpd : UpdateOpts :=
  { authKey := k1, vms := [k3, k2], services := none, contexts := none,
    controllers := none, alsoKnownAs := none, domain := none }

/-- The genesis document of the concrete example: `createDID exOpts 100`'s
document state. -/
def exDoc1 : DIDDoc :=
  { context := ["https://www.w3.org/ns/did/v1"],
    scid := "zHFEPYN93iPXBhUGGuSb1QU3",
    domain := none,
    controller := [],
    alsoKnownAs := [],
    verificationMethod :=
      [{ type := .authentication, publicKeyMultibase := "z6Mk0001", controller := .selfRef },
       { type := .assertionMethod, publicKeyMultibase := "z6Mk0002", controller := .selfRef }],
    service := [],
    proof := none }

/-- The updated document of the concrete example: after rotating to `k3`. -/
def exDoc2 : DIDDoc :=
  { context := ["https://www.w3.org/ns/did/v1"],
    scid := "zHFEPYN93iPXBhUGGuSb1QU3",
    domain := none,
    controller := [],
    alsoKnownAs := [],
    verificationMethod :=
      [{ type := .authentication, publicKeyMultibase := "z6Mk0003", controller := .selfRef },
       { type := .assertionMethod, publicKeyMultibase := "z6Mk0002", controller := .selfRef }],
    service := [],
    proof := none }

/-- The concrete single-entry log: the value `createDID exOpts 100` emits,
written out (the witnesses establish its validity directly by running
`resolveDID` over it). -/
def exLog1 : List LogEntry :=
  [{ entryHash := "zHFEPYN93iPXBhUGGuSb1QU3",
     versionId := 1,
     versionTime := 100,
     patch := { method := some PROTOCOL, scid := some "zHFEPYN93iPXBhUGGuSb1QU3", doc := exDoc1 },
     proof := { type := "DataIntegrityProof", cryptosuite := "eddsa-jcs-2022", created := 100,
                verificationMethod := "did:webnext:zHFEPYN93iPXBhUGGuSb1QU3#z6Mk0001",
                proofPurpose := "authentication",
                proofValue := "z9ZLcHnpcdLJ5Ezy2W4urzfm" } }]

/-- The concrete two-entry log: `exLog1` extended by the entry
`updateDID exLog1 exUpd 200` appends, written out. -/
def exLog2 : List LogEntry :=
  exLog1 ++
  [{ entryHash := "z8GzrRQEzKBKFjE2Qcwt4ZMy",
     versionId := 2,
     versionTime := 200,
     patch := { method := none, scid := none, doc := exDoc2 },
     proof := { type := "DataIntegrityProof", cryptosuite := "eddsa-jcs-2022", created := 200,
                verificationMethod := "did:webnext:zHFEPYN93iPXBhUGGuSb1QU3#z6Mk0001",
                proofPurpose := "authentication",
                proofValue := "z455GA9daVS3t4zUMghjzVoR" } }]

/-- A whole-proof replacement used against `exLog2`: the stored second
entry's signature value paired with a verification-method reference that no
document of the log lists. -/
def exBogusProof : DIProof :=
  { type := "DataIntegrityProof", cryptosuite := "eddsa-jcs-2022", created := 200,
    verificationMethod := "did:webnext:zHFEPYN93iPXBhUGGuSb1QU3#nosuchkey",
    proofPurpose := "authentication",
    proofValue := "z455GA9daVS3t4zUMghjzVoR" }

end DIDMethod

namespace SHA256

/-- A SHA-256 digest is always exactly 32 bytes. -/
theorem sha256_length (ms : List Nat) : (sha256 ms).length = 32 := by
  simp [sha256, digestBytes, wb]

end SHA256

namespace Multibase

/-- Multibase output of a full digest has exactly 24 characters. -/
theorem multibase_length (bs : List Nat) (h : 23 ≤ bs.length) :
    (multibase bs).length = 24 := by
  simp [multibase, String.length, Nat.min_eq_left h]

end Multibase

namespace DataIntegrity

theorem hash_length (s : String) : (hash s).length = 32 := SHA256.sha256_length _

/-- A successful `Except` computation yields a value. -/
theorem exists_ok_of_isOk {ε α : Type} {x : Except ε α} (h : x.isOk = true) :
    ∃ a, x = Except.ok a := by
  cases x with
  | error e => simp [Except.isOk, Except.toBool] at h
  | ok a => exact ⟨a, rfl⟩

/-- `getField` on a field list with the keys `ks` removed: a removed key no
longer resolves. -/
theorem getField_removeFields_of_mem {ks : List String} {k : String} (hk : k ∈ ks) :
    ∀ kvs, getField k (removeFields ks kvs) = none := by
  intro kvs
  induction kvs with
  | nil => rfl
  | cons kv rest ih =>
    obtain ⟨k', v⟩ := kv
    by_cases hm : k' ∈ ks
    · simpa [removeFields, List.filter_cons, hm] using ih
    · have hne : k' ≠ k := by rintro rfl; exact hm hk
      simpa [removeFields, List.filter_cons, hm, getField, hne] using ih

/-- `getField` on a field list with the keys `ks` removed: any other key
resolves to exactly what it resolved to before. -/
theorem getField_removeFields_of_not_mem {ks : List String} {k : String} (hk : k ∉ ks) :
    ∀ kvs, getField k (removeFields ks kvs) = getField k kvs := by
  intro kvs
  induction kvs with
  | nil => rfl
  | cons kv rest ih =>
    obtain ⟨k', v⟩ := kv
    by_cases hm : k' ∈ ks
    · have hne : k' ≠ k := by rintro rfl; exact hk hm
      simpa [removeFields, List.filter_cons, hm, getField, hne] using ih
    · by_cases he : k' = k
      · subst he
        simp [removeFields, List.filter_cons, hk, getField]
      · simpa [removeFields, List.filter_cons, hm, getField, he] using ih

/-- C1: for every document and proof on which `createVerifyData` succeeds, it
returns exactly 64 bytes: the SHA-256 digest of the canonicalized proof
options concatenated (proof-options digest first) with the SHA-256 digest of
the canonicalized document. -/
theorem createVerifyData_concat_hashes (document proof : Json) (r : Json × List Nat)
    (h : createVerifyData document proof = .ok r) :
    r.2.length = 64 ∧
    ∃ cp cd, canonizeProof r.1 = .ok cp ∧ canonize document = .ok cd ∧
      r.2 = hash cp ++ hash cd := by
  unfold createVerifyData at h
  cases hcp : canonizeProof (contextDefault document proof) with
  | error e => rw [hcp] at h; exact absurd h (by simp)
  | ok cp =>
    cases hcd : canonize document with
    | error e => rw [hcp, hcd] at h; exact absurd h (by simp)
    | ok cd =>
      rw [hcp, hcd] at h
      cases h
      exact ⟨by simp [hash_length], cp, cd, hcp, rfl, rfl⟩

/-- Witness for C1 at a concrete document and proof. -/
theorem createVerifyData_concat_hashes_witness :
    (createVerifyData exDoc exProof).toOption.map (fun r => r.2.length) = some 64 := by
  obtain ⟨r, hr⟩ := exists_ok_of_isOk (x := createVerifyData exDoc exProof) (by decide)
  rw [hr]
  show some r.2.length = some 64
  rw [(createVerifyData_concat_hashes exDoc exProof r hr).1]

/-- C7: the static loader resolves exactly the eight registered context URLs,
and canonicalizing a document that references any unregistered context URL
fails with a context-resolution error, while a document all of whose
referenced contexts are registered canonicalizes successfully. -/
theorem documentLoader_static_contexts :
    (∀ url : String, (documentLoader url).isSome = true ↔
      (url = DID_CONTEXT_URL ∨ url = ED25519_2020_CONTEXT_URL ∨
       url = SECURITY_CONTEXT_V1_URL ∨ url = SECURITY_CONTEXT_V2_URL ∨
       url = MULTIKEY_CONTEXT_URL ∨ url = DATA_INTEGRITY_CONTEXT_URL ∨
       url = LINKED_VP_CONTEXT_URL ∨ url = DIDCOMM_CONTEXT_URL)) ∧
    (∀ doc url, url ∈ referencedContexts doc → documentLoader url = none →
      canonize doc = .error .contextResolution) ∧
    (∀ doc, (∀ u ∈ referencedContexts doc, (documentLoader u).isSome = true) →
      ∃ s, canonize doc = .ok s) := by
  refine ⟨?_, ?_, ?_⟩
  · intro url
    simp only [documentLoader, jdl, getField]
    split_ifs <;> simp_all [eq_comm]
  · intro doc url hmem hload
    unfold canonize
    rw [if_neg]
    intro hall
    have := List.all_eq_true.mp hall url hmem
    rw [hload] at this
    simp at this
  · intro doc hall
    refine ⟨serJ doc, ?_⟩
    unfold canonize
    rw [if_pos (List.all_eq_true.mpr hall)]

/-- Witness for C7: a concrete unknown context URL is rejected, and a
concrete registered one resolves. -/
theorem documentLoader_static_contexts_witness :
    canonize exBadDoc = Except.error JsonLdErr.contextResolution ∧
    (documentLoader DID_CONTEXT_URL).isSome = true := by
  refine ⟨?_, rfl⟩
  exact documentLoader_static_contexts.2.1 exBadDoc ("https://example.com/unknown/v1")
    (by decide) rfl

/-- C8: `canonizeProof` of a proof object equals `canonize` of the object
with exactly the keys `jws`, `signatureValue` and `proofValue` removed; every
other field is passed to canonicalization unchanged.  (The source builds the
stripped object by rest-destructuring, leaving the caller's object itself
untouched; the embedding is pure, so the input is unmodified by
construction.) -/
theorem canonizeProof_strips_signature_values (kvs : List (String × Json)) :
    canonizeProof (.obj kvs) = canonize (.obj (removeFields sigKeys kvs)) ∧
    (∀ k, k ∈ sigKeys → getField k (removeFields sigKeys kvs) = none) ∧
    (∀ k, k ∉ sigKeys → getField k (removeFields sigKeys kvs) = getField k kvs) := by
  refine ⟨rfl, ?_, ?_⟩
  · intro k hk
    exact getField_removeFields_of_mem hk kvs
  · intro k hk
    exact getField_removeFields_of_not_mem hk kvs

/-- Witness for C8 at a concrete proof field list. -/
theorem canonizeProof_strips_signature_values_witness :
    getField "jws" (removeFields sigKeys exProofFields) = none ∧
    getField "type" (removeFields sigKeys exProofFields) = getField "type" exProofFields ∧
    canonizeProof (.obj exProofFields) = canonize (.obj (removeFields sigKeys exProofFields)) := by
  refine ⟨?_, ?_, (canonizeProof_strips_signature_values exProofFields).1⟩
  · exact (canonizeProof_strips_signature_values exProofFields).2.1 ("jws") (by simp [sigKeys])
  · exact (canonizeProof_strips_signature_values exProofFields).2.2 ("type") (by simp [sigKeys])

/-- C10 (amended): a successful `createVerifyData` returns the proof object
unchanged when its `@context` is truthy, and otherwise returns it with
`@context` set to the document's `@context` — the source's in-place mutation
of the caller's proof, modelled by explicit state passing.  The overwrite
fires whenever `proof['@context']` is falsy, which includes both an absent
key and a present-but-falsy value. -/
theorem createVerifyData_context_default (document proof : Json) (r : Json × List Nat)
    (h : createVerifyData document proof = .ok r) :
    r.1 = (if truthy (jsGet proof "@context") then proof
           else setKey proof "@context" (jsGet document "@context")) := by
  unfold createVerifyData at h
  cases hcp : canonizeProof (contextDefault document proof) with
  | error e => rw [hcp] at h; exact absurd h (by simp)
  | ok cp =>
    cases hcd : canonize document with
    | error e => rw [hcp, hcd] at h; exact absurd h (by simp)
    | ok cd =>
      rw [hcp, hcd] at h
      cases h
      rfl

/-- C10 counterexample: a proof that HAS an `@context` key (bound to the
falsy empty string) is not left unchanged — after `createVerifyData` its
`@context` reads the document's context URL instead of the empty string. -/
theorem createVerifyData_context_cex :
    (getKey cexProof "@context").isSome = true ∧
    (createVerifyData cexDoc cexProof).toOption.map (fun r => asStr (jsGet r.1 "@context"))
      = some (some DID_CONTEXT_URL) ∧
    asStr (jsGet cexProof "@context") = some "" := by
  exact ⟨rfl, rfl, rfl⟩

/-- Witness for the amended C10 at a concrete falsy-`@context` proof. -/
theorem createVerifyData_context_default_witness :
    (createVerifyData cexDoc cexProof).toOption.map Prod.fst
      = some (setKey cexProof "@context" (jsGet cexDoc "@context")) := by
  obtain ⟨r, hr⟩ := exists_ok_of_isOk (x := createVerifyData cexDoc cexProof) (by decide)
  rw [hr]
  show some r.1 = some (setKey cexProof "@context" (jsGet cexDoc "@context"))
  rw [createVerifyData_context_default cexDoc cexProof r hr]
  rfl

end DataIntegrity

namespace DIDMethod

/-- Applying a patch that carries a built (hence unsigned) document yields
exactly that document. -/
theorem applyPatch_mk (m sc : Option String) (s : String) (o : CreateOpts) :
    applyPatch { method := m, scid := sc, doc := buildDoc s o } = buildDoc s o := by
  simp [applyPatch, buildDoc]

/-- The resolver's reverse substitution of a final genesis patch is exactly
the placeholder patch the SCID was hashed from. -/
theorem genesisForm_create (o : CreateOpts) (h0 : String) :
    genesisForm { method := some PROTOCOL, scid := some h0, doc := buildDoc h0 o } =
      { method := some PROTOCOL, scid := some PLACEHOLDER, doc := buildDoc PLACEHOLDER o } := by
  simp [genesisForm, buildDoc]

/-- Proof options ignore the signature output. -/
theorem canonProofOptions_proofValue (p : DIProof) (v : String) :
    canonProofOptions { p with proofValue := v } = canonProofOptions p := rfl

/-- What a successful genesis resolution guarantees. -/
theorem resolveGenesis_ok_inv {e : LogEntry} {d : DIDDoc} (h : resolveGenesis e = .ok d) :
    e.patch.scid.isSome = true ∧ e.entryHash = genesisHashOf e.patch ∧
    verifyProof (applyPatch e.patch) (applyPatch e.patch) e.proof = .ok () ∧
    d = applyPatch e.patch := by
  unfold resolveGenesis at h
  split at h
  · exact absurd h (by simp)
  next s heq =>
    split at h
    · split at h
      · exact absurd h (by simp)
      next u hv =>
        cases h
        exact ⟨by simp [heq], by assumption, hv, rfl⟩
    · exact absurd h (by simp)

/-- What one successful replay step guarantees. -/
theorem replayEntries_cons_ok_inv {p : LogEntry} {d : DIDDoc} {e : LogEntry}
    {es : List LogEntry} {s : LogEntry × DIDDoc}
    (h : replayEntries p d (e :: es) = .ok s) :
    e.versionId = p.versionId + 1 ∧ p.versionTime < e.versionTime ∧
    e.entryHash = entryHashOf p.entryHash e.patch ∧
    verifyProof d (applyPatch e.patch) e.proof = .ok () ∧
    replayEntries e (applyPatch e.patch) es = .ok s := by
  unfold replayEntries at h
  split_ifs at h with h1 h2 h3
  split at h
  · exact absurd h (by simp)
  next u hv => exact ⟨h1, h2, h3, hv, h⟩

/-- What a successful resolution guarantees: a non-empty log, a resolved
genesis, a full replay, and the output assembled from the final state. -/
theorem resolveDID_ok_inv {log : List LogEntry} {r : Resolved} (h : resolveDID log = .ok r) :
    ∃ e0 rest d0 s, log = e0 :: rest ∧ resolveGenesis e0 = .ok d0 ∧
      replayEntries e0 d0 rest = .ok s ∧
      r = { did := docId s.2, doc := s.2,
            meta := { versionId := s.1.versionId, versionTime := s.1.versionTime,
                      created := e0.versionTime, updated := s.1.versionTime,
                      deactivated := (authenticationOf s.2).isEmpty } } := by
  unfold resolveDID at h
  split at h
  · exact absurd h (by simp)
  next e0 rest =>
    split at h
    · exact absurd h (by simp)
    next d0 hg =>
      split at h
      · exact absurd h (by simp)
      next le dN hrep =>
        cases h
        exact ⟨e0, rest, d0, (le, dN), rfl, hg, hrep, rfl⟩

/-- Replaying a concatenation is replaying the prefix and continuing from
its final state. -/
theorem replayEntries_append (xs : List LogEntry) :
    ∀ (p : LogEntry) (d : DIDDoc) (ys : List LogEntry),
      replayEntries p d (xs ++ ys) =
        match replayEntries p d xs with
        | .error e => .error e
        | .ok s => replayEntries s.1 s.2 ys := by
  induction xs with
  | nil => intro p d ys; rfl
  | cons e es ih =>
    intro p d ys
    show replayEntries p d (e :: (es ++ ys)) = _
    by_cases h1 : e.versionId = p.versionId + 1
    · by_cases h2 : p.versionTime < e.versionTime
      · by_cases h3 : e.entryHash = entryHashOf p.entryHash e.patch
        · simp only [replayEntries, h1, h2, h3, if_true, if_pos]
          cases hv : verifyProof d (applyPatch e.patch) e.proof with
          | error err => simp
          | ok u => exact ih e (applyPatch e.patch) ys
        · simp only [replayEntries, h1, h2, h3, if_true, if_pos, if_neg, not_false_iff]
      · simp only [replayEntries, h1, h2, if_true, if_pos, if_neg, not_false_iff]
    · simp only [replayEntries, h1, if_neg, not_false_iff]

/-- The final entry of a successful replay is the last log entry. -/
theorem replayEntries_last (es : List LogEntry) :
    ∀ (p : LogEntry) (d : DIDDoc) (s : LogEntry × DIDDoc),
      replayEntries p d es = .ok s → s.1 = es.getLastD p := by
  induction es with
  | nil =>
    intro p d s h
    cases h
    rfl
  | cons e es ih =>
    intro p d s h
    obtain ⟨_, _, _, _, hrec⟩ := replayEntries_cons_ok_inv h
    rw [List.getLastD_cons]
    exact ih e (applyPatch e.patch) s hrec

/-- A successful replay advances the version counter by the entry count. -/
theorem replayEntries_versionId (es : List LogEntry) :
    ∀ (p : LogEntry) (d : DIDDoc) (s : LogEntry × DIDDoc),
      replayEntries p d es = .ok s → s.1.versionId = p.versionId + es.length := by
  induction es with
  | nil =>
    intro p d s h
    cases h
    rfl
  | cons e es ih =>
    intro p d s h
    obtain ⟨h1, _, _, _, hrec⟩ := replayEntries_cons_ok_inv h
    have hrec' := ih e (applyPatch e.patch) s hrec
    rw [hrec', h1, List.length_cons]
    omega

/-- A successful replay certifies the version-counter and timestamp chain
over the previous entry and every replayed one. -/
theorem replayEntries_chain (es : List LogEntry) :
    ∀ (p : LogEntry) (d : DIDDoc) (s : LogEntry × DIDDoc),
      replayEntries p d es = .ok s →
      List.Chain' (fun a b => b.versionId = a.versionId + 1 ∧ a.versionTime < b.versionTime)
        (p :: es) := by
  induction es with
  | nil =>
    intro p d s h
    simp
  | cons e es ih =>
    intro p d s h
    obtain ⟨h1, h2, _, _, hrec⟩ := replayEntries_cons_ok_inv h
    exact List.Chain'.cons ⟨h1, h2⟩ (ih e (applyPatch e.patch) s hrec)

/-- A successful `createDID` produces a single-entry log that resolves to
the created document (minus its proof) and metadata. -/
theorem createDID_resolves {o : CreateOpts} {t : Nat} {c : DIDResult}
    (h : createDID o t = .ok c) :
    resolveDID c.log = .ok { did := c.did, doc := { c.doc with proof := none }, meta := c.meta } ∧
    c.log.length = 1 ∧ c.meta.versionId = 1 ∧ c.meta.created = t ∧
    (∀ e, c.log = [e] → e.versionId = 1 ∧ e.versionTime = t) := by
  simp only [createDID] at h
  split at h
  · exact absurd h (by simp)
  next k hk =>
    split at h
    · exact absurd h (by simp)
    next u hv =>
      cases h
      refine ⟨?_, rfl, rfl, rfl, ?_⟩
      · simp only [resolveDID, resolveGenesis, genesisHashOf, genesisForm_create, applyPatch_mk]
        rw [if_pos trivial, hv]
        simp [replayEntries, buildDoc]
      · intro e he
        rw [List.cons.injEq] at he
        rw [← he.1]
        exact ⟨rfl, rfl⟩

/-- The last element of a non-empty list, through `getLastD` of its tail. -/
theorem getLast?_cons_getLastD {α : Type} (a : α) (l : List α) :
    (a :: l).getLast? = some (l.getLastD a) := by
  induction l generalizing a with
  | nil => rfl
  | cons b bs ih => rw [List.getLast?_cons_cons, ih, List.getLastD_cons]

/-- A successful `updateDID` appends one entry, and the extended log
resolves to the updated document (minus its proof) and metadata; the SCID,
the creation time, and — when the update does not change the domain — the
DID string are those of the resolved input log. -/
theorem updateDID_resolves {log : List LogEntry} {o : UpdateOpts} {t : Nat} {u : DIDResult}
    {r : Resolved} (hr : resolveDID log = .ok r) (h : updateDID log o t = .ok u) :
    resolveDID u.log = .ok { did := u.did, doc := { u.doc with proof := none }, meta := u.meta } ∧
    u.log.length = log.length + 1 ∧
    u.meta.versionId = r.meta.versionId + 1 ∧
    u.meta.created = r.meta.created ∧
    u.doc.scid = r.doc.scid ∧
    (o.domain = none → u.doc.domain = r.doc.domain) ∧
    ((o.domain = none ∨ o.domain = r.doc.domain) → u.did = r.did) := by
  obtain ⟨e0, rest, d0, s, hlog, hg, hrep, hre⟩ := resolveDID_ok_inv hr
  simp only [updateDID] at h
  split at h
  next err heq => rw [heq] at hr; exact absurd hr (by simp)
  next r' heq =>
    rw [hr] at heq
    injection heq with heq'
    subst heq'
    split at h
    · exact absurd h (by simp)
    next hdea =>
      split at h
      · exact absurd h (by simp)
      next prev hlast =>
        split at h
        · exact absurd h (by simp)
        next htime =>
          split at h
          · exact absurd h (by simp)
          next k hfind =>
            split at h
            · exact absurd h (by simp)
            next u' hv =>
              cases h
              have hprev : prev = s.1 := by
                rw [hlog] at hlast
                rw [getLast?_cons_getLastD] at hlast
                rw [replayEntries_last rest e0 d0 s hrep]
                exact ((Option.some.injEq _ _).mp hlast).symm
              have hrdoc : r.doc = s.2 := by rw [hre]
              have hrmeta : r.meta.versionId = s.1.versionId ∧ r.meta.created = e0.versionTime := by
                rw [hre]; exact ⟨rfl, rfl⟩
              refine ⟨?_, by simp, ?_, rfl, ?_, ?_, ?_⟩
              · -- the extended log resolves
                rw [hlog, List.cons_append]
                simp only [resolveDID, hg]
                rw [replayEntries_append, hrep]
                simp only [replayEntries]
                rw [if_pos (by rw [hprev]), if_pos (by rw [← hprev]; omega),
                    if_pos (by rw [hprev]), applyPatch_mk]
                rw [← hrdoc, hv]
                simp [buildDoc, hrmeta.2]
              · rw [hrmeta.1, hprev]
              · simp [buildDoc, hrdoc, hre]
              · intro hd
                simp only [hd]
                simp [buildDoc, hrdoc, hre]
              · intro hd
                rcases hd with hd | hd
                · simp only [docId, hd]
                  rw [hre]
                  simp [docId, buildDoc]
                · simp only [docId, hd]
                  rw [hre]
                  simp only [docId, buildDoc, hd]
                  cases s.2.domain <;> rfl

/-- `prevEntry` peels off a cons together with the position. -/
theorem prevEntry_cons (p e : LogEntry) (es : List LogEntry) (j : Nat) :
    prevEntry p (e :: es) (j + 1) = prevEntry e es j := by
  cases j <;> rfl

/-- Positional lookup in a log through `prevEntry`. -/
theorem getD_cons_prevEntry (e0 : LogEntry) (rest : List LogEntry) (k : Nat) :
    (e0 :: rest).getD k default = prevEntry e0 rest k := by
  cases k <;> rfl

theorem setAt_cons_succ {α : Type} (x : α) (xs : List α) (n : Nat) (f : α → α) :
    setAt (x :: xs) (n + 1) f = x :: setAt xs n f := rfl

/-- A failing replay after a resolved genesis fails the whole resolution. -/
theorem resolveDID_replay_error {e0 : LogEntry} {d0 : DIDDoc} {L : List LogEntry}
    {err : ResErr} (hg : resolveGenesis e0 = .ok d0)
    (h : replayEntries e0 d0 L = .error err) :
    resolveDID (e0 :: L) = .error err := by
  simp only [resolveDID, hg, h]

/-- A failing genesis fails the whole resolution. -/
theorem resolveDID_genesis_error {e0 : LogEntry} {L : List LogEntry} {err : ResErr}
    (hg : resolveGenesis e0 = .error err) :
    resolveDID (e0 :: L) = .error err := by
  simp only [resolveDID, hg]

/-- A successful replay after a resolved genesis resolves the whole log. -/
theorem resolveDID_replay_ok {e0 : LogEntry} {d0 : DIDDoc} {L : List LogEntry}
    {s : LogEntry × DIDDoc} (hg : resolveGenesis e0 = .ok d0)
    (h : replayEntries e0 d0 L = .ok s) :
    (resolveDID (e0 :: L)).isOk = true := by
  simp only [resolveDID, hg, h, Except.isOk, Except.toBool]

/-- Each replayed entry's version counter is its predecessor's plus one. -/
theorem replay_vid_step (es : List LogEntry) :
    ∀ (p : LogEntry) (d : DIDDoc) (s : LogEntry × DIDDoc), replayEntries p d es = .ok s →
      ∀ j, j < es.length →
        (es.getD j default).versionId = (prevEntry p es j).versionId + 1 := by
  induction es with
  | nil =>
    intro p d s h j hj
    exact absurd hj (by simp)
  | cons e es ih =>
    intro p d s h j hj
    obtain ⟨h1, _, _, _, hrec⟩ := replayEntries_cons_ok_inv h
    cases j with
    | zero => exact h1
    | succ j' =>
      rw [prevEntry_cons]
      exact ih e (applyPatch e.patch) s hrec j' (by simpa using hj)

/-- Tampering with a replayed entry's `versionId` so that it no longer
succeeds its predecessor's is rejected as a version gap. -/
theorem replay_tamper_versionId (es : List LogEntry) :
    ∀ (p : LogEntry) (d : DIDDoc) (s : LogEntry × DIDDoc), replayEntries p d es = .ok s →
      ∀ j v, j < es.length → v ≠ (prevEntry p es j).versionId + 1 →
        replayEntries p d (setAt es j (fun e => { e with versionId := v })) =
          .error .versionGap := by
  induction es with
  | nil =>
    intro p d s h j v hj hv
    exact absurd hj (by simp)
  | cons e es ih =>
    intro p d s h j v hj hv
    obtain ⟨h1, h2, h3, hver, hrec⟩ := replayEntries_cons_ok_inv h
    cases j with
    | zero =>
      simp only [prevEntry] at hv
      simp only [setAt, replayEntries]
      rw [if_neg hv]
    | succ j' =>
      rw [setAt_cons_succ]
      simp only [replayEntries]
      rw [if_pos h1, if_pos h2, if_pos h3, hver]
      rw [prevEntry_cons] at hv
      exact ih e (applyPatch e.patch) s hrec j' v (by simpa using hj) hv

/-- Tampering with a replayed entry's `versionTime` down to (or below) its
predecessor's is rejected as a time regression. -/
theorem replay_tamper_versionTime (es : List LogEntry) :
    ∀ (p : LogEntry) (d : DIDDoc) (s : LogEntry × DIDDoc), replayEntries p d es = .ok s →
      ∀ j v, j < es.length → v ≤ (prevEntry p es j).versionTime →
        replayEntries p d (setAt es j (fun e => { e with versionTime := v })) =
          .error .timeRegression := by
  induction es with
  | nil =>
    intro p d s h j v hj hv
    exact absurd hj (by simp)
  | cons e es ih =>
    intro p d s h j v hj hv
    obtain ⟨h1, h2, h3, hver, hrec⟩ := replayEntries_cons_ok_inv h
    cases j with
    | zero =>
      simp only [prevEntry] at hv
      simp only [setAt, replayEntries]
      rw [if_pos h1, if_neg (Nat.not_lt.mpr hv)]
    | succ j' =>
      rw [setAt_cons_succ]
      simp only [replayEntries]
      rw [if_pos h1, if_pos h2, if_pos h3, hver]
      rw [prevEntry_cons] at hv
      exact ih e (applyPatch e.patch) s hrec j' v (by simpa using hj) hv

/-- Tampering with a replayed entry's stored `entryHash` is rejected as a
hash mismatch: the recomputed chain hash no longer matches. -/
theorem replay_tamper_entryHash (es : List LogEntry) :
    ∀ (p : LogEntry) (d : DIDDoc) (s : LogEntry × DIDDoc), replayEntries p d es = .ok s →
      ∀ j v, j < es.length → v ≠ (es.getD j default).entryHash →
        replayEntries p d (setAt es j (fun e => { e with entryHash := v })) =
          .error .hashMismatch := by
  induction es with
  | nil =>
    intro p d s h j v hj hv
    exact absurd hj (by simp)
  | cons e es ih =>
    intro p d s h j v hj hv
    obtain ⟨h1, h2, h3, hver, hrec⟩ := replayEntries_cons_ok_inv h
    cases j with
    | zero =>
      simp only [List.getD_cons_zero] at hv
      simp only [setAt, replayEntries]
      rw [if_pos h1, if_pos h2, if_neg (by rw [← h3]; exact hv)]
    | succ j' =>
      rw [setAt_cons_succ]
      simp only [replayEntries]
      rw [if_pos h1, if_pos h2, if_pos h3, hver]
      exact ih e (applyPatch e.patch) s hrec j' v (by simpa using hj) (by simpa using hv)

/-- Tampering with a replayed entry's `patch` is rejected as a hash mismatch
whenever the recomputed chain hash of the new patch differs from the stored
entry hash (true of any actual change unless SHA-256 collides). -/
theorem replay_tamper_patch (es : List LogEntry) :
    ∀ (p : LogEntry) (d : DIDDoc) (s : LogEntry × DIDDoc), replayEntries p d es = .ok s →
      ∀ j P, j < es.length →
        entryHashOf (prevEntry p es j).entryHash P ≠ (es.getD j default).entryHash →
        replayEntries p d (setAt es j (fun e => { e with patch := P })) =
          .error .hashMismatch := by
  induction es with
  | nil =>
    intro p d s h j P hj hv
    exact absurd hj (by simp)
  | cons e es ih =>
    intro p d s h j P hj hv
    obtain ⟨h1, h2, h3, hver, hrec⟩ := replayEntries_cons_ok_inv h
    cases j with
    | zero =>
      simp only [prevEntry, List.getD_cons_zero] at hv
      simp only [setAt, replayEntries]
      rw [if_pos h1, if_pos h2, if_neg (fun he => hv (by rw [← he]))]
    | succ j' =>
      rw [setAt_cons_succ]
      simp only [replayEntries]
      rw [if_pos h1, if_pos h2, if_pos h3, hver]
      rw [prevEntry_cons] at hv
      exact ih e (applyPatch e.patch) s hrec j' P (by simpa using hj) (by simpa using hv)

/-- A proof that verified fails verification after any change to its
signature value, because verification recomputes the unique expected
signature over the same data. -/
theorem verifyProof_tamper_proofValue {a sd : DIDDoc} {p : DIProof}
    (h : verifyProof a sd p = .ok ()) (v : String) (hv : v ≠ p.proofValue) :
    verifyProof a sd { p with proofValue := v } = .error .proofInvalid := by
  unfold verifyProof at h ⊢
  split at h
  · exact absurd h (by simp)
  next vm hfind =>
    split at h
    · exact absurd h (by simp)
    next role hrole =>
      split_ifs at h with htype hval
      · simp only [hfind, hrole]
        rw [if_pos htype, if_neg (fun he => hv (by rw [hval]; exact he))]

/-- `purposeRole` maps a purpose string to a role exactly when the string is
that role's canonical name. -/
theorem purposeRole_eq {s : String} {r : VMRole} (h : purposeRole s = some r) :
    s = roleName r := by
  unfold purposeRole at h
  split at h <;> simp_all [roleName] <;> (subst h; rfl)

/-- If no verification method of the authorizing document signs to a proof's
stored signature value over that proof's own options, verification fails
with one of the three proof-related errors. -/
theorem verifyProof_no_forgery (a sd : DIDDoc) (p' : DIProof)
    (hside : ∀ vm' ∈ a.verificationMethod,
      p'.proofValue ≠ Multibase.multibase (ed25519Sign vm'.publicKeyMultibase
        (verifyDataOf sd p'))) :
    verifyProof a sd p' = .error .unknownVerificationMethod ∨
    verifyProof a sd p' = .error .unauthorizedKey ∨
    verifyProof a sd p' = .error .proofInvalid := by
  unfold verifyProof
  split
  · exact Or.inl rfl
  next vm hfind =>
    have hmem := List.mem_of_find?_eq_some hfind
    split
    · exact Or.inr (Or.inl rfl)
    next role hrole =>
      split_ifs with htype hval
      · exact absurd hval (hside vm hmem)
      · exact Or.inr (Or.inr rfl)
      · exact Or.inr (Or.inl rfl)

/-- A proof that verified fails verification after a change to its `type`,
`cryptosuite` or `created` options whenever no key of the authorizing
document signs to the stored signature value over the altered options: the
recomputed verify data covers every options field. -/
theorem verifyProof_tamper_options {a sd : DIDDoc} {p : DIProof}
    (h : verifyProof a sd p = .ok ()) (t' c' : String) (n' : Nat)
    (hside : ∀ vm' ∈ a.verificationMethod,
      p.proofValue ≠ Multibase.multibase (ed25519Sign vm'.publicKeyMultibase
        (verifyDataOf sd { p with type := t', cryptosuite := c', created := n' }))) :
    verifyProof a sd { p with type := t', cryptosuite := c', created := n' } =
      .error .proofInvalid := by
  unfold verifyProof at h ⊢
  split at h
  · exact absurd h (by simp)
  next vm hfind =>
    have hmem := List.mem_of_find?_eq_some hfind
    split at h
    · exact absurd h (by simp)
    next role hrole =>
      split_ifs at h with htype hval
      · simp only [hfind, hrole]
        rw [if_pos htype, if_neg (fun he => hside vm hmem he)]

/-- A proof that verified fails authorization after any change to its
`proofPurpose`: the altered purpose string no longer names the signing
key's role. -/
theorem verifyProof_tamper_purpose {a sd : DIDDoc} {p : DIProof}
    (h : verifyProof a sd p = .ok ()) (v : String) (hs : v ≠ p.proofPurpose) :
    verifyProof a sd { p with proofPurpose := v } = .error .unauthorizedKey := by
  unfold verifyProof at h ⊢
  split at h
  · exact absurd h (by simp)
  next vm hfind =>
    split at h
    · exact absurd h (by simp)
    next role hrole =>
      split_ifs at h with htype hval
      · simp only [hfind]
        split
        · rfl
        next r' hpr =>
          have hr' : r' ≠ role := by
            intro hrr
            apply hs
            rw [purposeRole_eq hpr, hrr, ← purposeRole_eq hrole]
          rw [if_neg (fun hte => hr' (hte.symm.trans htype))]

/-- Tampering with a replayed entry's `proofValue` is rejected as an invalid
proof. -/
theorem replay_tamper_proofValue (es : List LogEntry) :
    ∀ (p : LogEntry) (d : DIDDoc) (s : LogEntry × DIDDoc), replayEntries p d es = .ok s →
      ∀ j v, j < es.length → v ≠ (es.getD j default).proof.proofValue →
        replayEntries p d
            (setAt es j (fun e => { e with proof := { e.proof with proofValue := v } })) =
          .error .proofInvalid := by
  induction es with
  | nil =>
    intro p d s h j v hj hv
    exact absurd hj (by simp)
  | cons e es ih =>
    intro p d s h j v hj hv
    obtain ⟨h1, h2, h3, hver, hrec⟩ := replayEntries_cons_ok_inv h
    cases j with
    | zero =>
      simp only [List.getD_cons_zero] at hv
      simp only [setAt, replayEntries]
      rw [if_pos h1, if_pos h2, if_pos h3, verifyProof_tamper_proofValue hver v hv]
    | succ j' =>
      rw [setAt_cons_succ]
      simp only [replayEntries]
      rw [if_pos h1, if_pos h2, if_pos h3, hver]
      exact ih e (applyPatch e.patch) s hrec j' v (by simpa using hj) (by simpa using hv)

/-- Replay-entry tampering: replacing an entry's whole proof object fails
the replay whenever no key of the authorizing document (the state carried
into the entry, which is the previous entry's patched state) signs to the
replacement's stored signature value over the replacement's own options. -/
theorem replay_tamper_proof (es : List LogEntry) :
    ∀ (p : LogEntry) (d : DIDDoc) (s : LogEntry × DIDDoc), replayEntries p d es = .ok s →
      d = applyPatch p.patch →
      ∀ j p', j < es.length →
        (∀ vm' ∈ (applyPatch (prevEntry p es j).patch).verificationMethod,
          p'.proofValue ≠ Multibase.multibase (ed25519Sign vm'.publicKeyMultibase
            (verifyDataOf (applyPatch (es.getD j default).patch) p'))) →
        (replayEntries p d (setAt es j (fun e => { e with proof := p' })) =
            .error .unknownVerificationMethod ∨
         replayEntries p d (setAt es j (fun e => { e with proof := p' })) =
            .error .unauthorizedKey ∨
         replayEntries p d (setAt es j (fun e => { e with proof := p' })) =
            .error .proofInvalid) := by
  induction es with
  | nil =>
    intro p d s h hd j p' hj hside
    exact absurd hj (by simp)
  | cons e es ih =>
    intro p d s h hd j p' hj hside
    obtain ⟨h1, h2, h3, hver, hrec⟩ := replayEntries_cons_ok_inv h
    cases j with
    | zero =>
      simp only [prevEntry, List.getD_cons_zero] at hside
      subst hd
      simp only [setAt, replayEntries]
      rw [if_pos h1, if_pos h2, if_pos h3]
      rcases verifyProof_no_forgery (applyPatch p.patch) (applyPatch e.patch) p' hside
        with hv | hv | hv
      · exact Or.inl (by rw [hv])
      · exact Or.inr (Or.inl (by rw [hv]))
      · exact Or.inr (Or.inr (by rw [hv]))
    | succ j' =>
      rw [setAt_cons_succ]
      rw [prevEntry_cons] at hside
      simp only [List.getD_cons_succ] at hside
      simp only [replayEntries]
      rw [if_pos h1, if_pos h2, if_pos h3, hver]
      rcases ih e (applyPatch e.patch) s hrec rfl j' p' (by simpa using hj) hside
        with hv | hv | hv
      · exact Or.inl hv
      · exact Or.inr (Or.inl hv)
      · exact Or.inr (Or.inr hv)

/-- Replay-entry tampering: a changed `type`, `cryptosuite` or `created` in
an entry's proof options is rejected as an invalid proof whenever no key of
the authorizing document signs to the stored signature value over the
altered options. -/
theorem replay_tamper_proofOptions (es : List LogEntry) :
    ∀ (p : LogEntry) (d : DIDDoc) (s : LogEntry × DIDDoc), replayEntries p d es = .ok s →
      d = applyPatch p.patch →
      ∀ j (t' c' : String) (n' : Nat), j < es.length →
        (∀ vm' ∈ (applyPatch (prevEntry p es j).patch).verificationMethod,
          (es.getD j default).proof.proofValue ≠
            Multibase.multibase (ed25519Sign vm'.publicKeyMultibase
              (verifyDataOf (applyPatch (es.getD j default).patch)
                { (es.getD j default).proof with
                    type := t', cryptosuite := c', created := n' }))) →
        replayEntries p d (setAt es j (fun e =>
            { e with proof :=
                { e.proof with type := t', cryptosuite := c', created := n' } })) =
          .error .proofInvalid := by
  induction es with
  | nil =>
    intro p d s h hd j t' c' n' hj hside
    exact absurd hj (by simp)
  | cons e es ih =>
    intro p d s h hd j t' c' n' hj hside
    obtain ⟨h1, h2, h3, hver, hrec⟩ := replayEntries_cons_ok_inv h
    cases j with
    | zero =>
      simp only [prevEntry, List.getD_cons_zero] at hside
      subst hd
      simp only [setAt, replayEntries]
      rw [if_pos h1, if_pos h2, if_pos h3, verifyProof_tamper_options hver t' c' n' hside]
    | succ j' =>
      rw [setAt_cons_succ]
      rw [prevEntry_cons] at hside
      simp only [List.getD_cons_succ] at hside
      simp only [replayEntries]
      rw [if_pos h1, if_pos h2, if_pos h3, hver]
      exact ih e (applyPatch e.patch) s hrec rfl j' t' c' n' (by simpa using hj) hside

/-- Replay-entry tampering: any change to an entry's proof purpose is
rejected as an unauthorized key. -/
theorem replay_tamper_proofPurpose (es : List LogEntry) :
    ∀ (p : LogEntry) (d : DIDDoc) (s : LogEntry × DIDDoc), replayEntries p d es = .ok s →
      ∀ j v, j < es.length → v ≠ (es.getD j default).proof.proofPurpose →
        replayEntries p d
            (setAt es j (fun e => { e with proof := { e.proof with proofPurpose := v } })) =
          .error .unauthorizedKey := by
  induction es with
  | nil =>
    intro p d s h j v hj hv
    exact absurd hj (by simp)
  | cons e es ih =>
    intro p d s h j v hj hv
    obtain ⟨h1, h2, h3, hver, hrec⟩ := replayEntries_cons_ok_inv h
    cases j with
    | zero =>
      simp only [List.getD_cons_zero] at hv
      simp only [setAt, replayEntries]
      rw [if_pos h1, if_pos h2, if_pos h3, verifyProof_tamper_purpose hver v hv]
    | succ j' =>
      rw [setAt_cons_succ]
      simp only [replayEntries]
      rw [if_pos h1, if_pos h2, if_pos h3, hver]
      exact ih e (applyPatch e.patch) s hrec j' v (by simpa using hj) (by simpa using hv)

/-- Genesis-entry tampering: a changed stored entry hash no longer matches
the recomputed self-certifying hash. -/
theorem resolveGenesis_tamper_entryHash {e : LogEntry} {d : DIDDoc}
    (h : resolveGenesis e = .ok d) (v : String) (hv : v ≠ e.entryHash) :
    resolveGenesis { e with entryHash := v } = .error .scidMismatch := by
  obtain ⟨hscid, hhash, _, _⟩ := resolveGenesis_ok_inv h
  obtain ⟨sc, hsc⟩ : ∃ sc, e.patch.scid = some sc := by
    cases hx : e.patch.scid with
    | none => rw [hx] at hscid; exact absurd hscid (by simp)
    | some sc => exact ⟨sc, rfl⟩
  unfold resolveGenesis
  simp only [hsc]
  rw [if_neg (by rw [← hhash]; exact hv)]

/-- Genesis-entry tampering: a changed patch whose recomputed placeholder
hash differs from the stored entry hash is rejected. -/
theorem resolveGenesis_tamper_patch {e : LogEntry} {d : DIDDoc}
    (_h : resolveGenesis e = .ok d) (P : Patch) (hv : genesisHashOf P ≠ e.entryHash) :
    resolveGenesis { e with patch := P } = .error .scidMismatch := by
  unfold resolveGenesis
  cases hx : P.scid with
  | none => simp [hx]
  | some sc =>
    simp only [hx]
    rw [if_neg (fun he => hv (by rw [← he]))]

/-- Genesis-entry tampering: a changed signature value invalidates the
genesis proof. -/
theorem resolveGenesis_tamper_proofValue {e : LogEntry} {d : DIDDoc}
    (h : resolveGenesis e = .ok d) (v : String) (hv : v ≠ e.proof.proofValue) :
    resolveGenesis { e with proof := { e.proof with proofValue := v } } =
      .error .proofInvalid := by
  obtain ⟨hscid, hhash, hver, _⟩ := resolveGenesis_ok_inv h
  obtain ⟨sc, hsc⟩ : ∃ sc, e.patch.scid = some sc := by
    cases hx : e.patch.scid with
    | none => rw [hx] at hscid; exact absurd hscid (by simp)
    | some sc => exact ⟨sc, rfl⟩
  unfold resolveGenesis
  simp only [hsc]
  rw [if_pos hhash, verifyProof_tamper_proofValue hver v hv]

/-- Genesis-entry tampering: replacing the whole genesis proof object fails
resolution whenever no genesis key signs to the replacement's stored
signature value over the replacement's own options. -/
theorem resolveGenesis_tamper_proof {e : LogEntry} {d : DIDDoc}
    (h : resolveGenesis e = .ok d) (p' : DIProof)
    (hside : ∀ vm' ∈ (applyPatch e.patch).verificationMethod,
      p'.proofValue ≠ Multibase.multibase (ed25519Sign vm'.publicKeyMultibase
        (verifyDataOf (applyPatch e.patch) p'))) :
    resolveGenesis { e with proof := p' } = .error .unknownVerificationMethod ∨
    resolveGenesis { e with proof := p' } = .error .unauthorizedKey ∨
    resolveGenesis { e with proof := p' } = .error .proofInvalid := by
  obtain ⟨hscid, hhash, _, _⟩ := resolveGenesis_ok_inv h
  obtain ⟨sc, hsc⟩ : ∃ sc, e.patch.scid = some sc := by
    cases hx : e.patch.scid with
    | none => rw [hx] at hscid; exact absurd hscid (by simp)
    | some sc => exact ⟨sc, rfl⟩
  unfold resolveGenesis
  simp only [hsc]
  rw [if_pos hhash]
  rcases verifyProof_no_forgery (applyPatch e.patch) (applyPatch e.patch) p' hside
    with hv | hv | hv
  · exact Or.inl (by rw [hv])
  · exact Or.inr (Or.inl (by rw [hv]))
  · exact Or.inr (Or.inr (by rw [hv]))

/-- Genesis-entry tampering: a changed `type`, `cryptosuite` or `created`
in the genesis proof options is rejected as an invalid proof whenever no
genesis key signs to the stored signature value over the altered
options. -/
theorem resolveGenesis_tamper_proofOptions {e : LogEntry} {d : DIDDoc}
    (h : resolveGenesis e = .ok d) (t' c' : String) (n' : Nat)
    (hside : ∀ vm' ∈ (applyPatch e.patch).verificationMethod,
      e.proof.proofValue ≠ Multibase.multibase (ed25519Sign vm'.publicKeyMultibase
        (verifyDataOf (applyPatch e.patch)
          { e.proof with type := t', cryptosuite := c', created := n' }))) :
    resolveGenesis { e with proof :=
        { e.proof with type := t', cryptosuite := c', created := n' } } =
      .error .proofInvalid := by
  obtain ⟨hscid, hhash, hver, _⟩ := resolveGenesis_ok_inv h
  obtain ⟨sc, hsc⟩ : ∃ sc, e.patch.scid = some sc := by
    cases hx : e.patch.scid with
    | none => rw [hx] at hscid; exact absurd hscid (by simp)
    | some sc => exact ⟨sc, rfl⟩
  unfold resolveGenesis
  simp only [hsc]
  rw [if_pos hhash, verifyProof_tamper_options hver t' c' n' hside]

/-- Genesis-entry tampering: any change to the genesis proof's purpose is
rejected as an unauthorized key. -/
theorem resolveGenesis_tamper_proofPurpose {e : LogEntry} {d : DIDDoc}
    (h : resolveGenesis e = .ok d) (v : String) (hs : v ≠ e.proof.proofPurpose) :
    resolveGenesis { e with proof := { e.proof with proofPurpose := v } } =
      .error .unauthorizedKey := by
  obtain ⟨hscid, hhash, hver, _⟩ := resolveGenesis_ok_inv h
  obtain ⟨sc, hsc⟩ : ∃ sc, e.patch.scid = some sc := by
    cases hx : e.patch.scid with
    | none => rw [hx] at hscid; exact absurd hscid (by simp)
    | some sc => exact ⟨sc, rfl⟩
  unfold resolveGenesis
  simp only [hsc]
  rw [if_pos hhash, verifyProof_tamper_purpose hver v hs]

/-- Genesis resolution never reads the entry's `versionTime`. -/
theorem resolveGenesis_set_versionTime (e : LogEntry) (v : Nat) :
    resolveGenesis { e with versionTime := v } = resolveGenesis e := rfl

/-- Genesis resolution never reads the entry's `versionId`. -/
theorem resolveGenesis_set_versionId (e : LogEntry) (v : Nat) :
    resolveGenesis { e with versionId := v } = resolveGenesis e := rfl

/-- Replaying after a previous entry whose `versionTime` alone changed
still succeeds, provided the new time stays below the next entry's. -/
theorem replay_prevTime (e : LogEntry) (v : Nat) (d : DIDDoc) (es : List LogEntry)
    (s : LogEntry × DIDDoc) (h : replayEntries e d es = .ok s)
    (hb : es = [] ∨ v < (es.headD default).versionTime) :
    ∃ s', replayEntries { e with versionTime := v } d es = .ok s' ∧ s'.2 = s.2 := by
  cases es with
  | nil =>
    cases h
    exact ⟨({ e with versionTime := v }, d), rfl, rfl⟩
  | cons e1 es' =>
    obtain ⟨h1, h2, h3, hver, hrec⟩ := replayEntries_cons_ok_inv h
    have hb' : v < e1.versionTime := by
      rcases hb with hb | hb
      · exact absurd hb (by simp)
      · simpa using hb
    refine ⟨s, ?_, rfl⟩
    simp only [replayEntries]
    rw [if_pos h1, if_pos hb', if_pos h3, hver]
    exact hrec

/-- Tampering with a replayed entry's `versionTime` is NOT detected as long
as the new time stays strictly between its neighbours': the time is covered
by neither the hash chain nor the proof. -/
theorem replay_tamper_time_ok (es : List LogEntry) :
    ∀ (p : LogEntry) (d : DIDDoc) (s : LogEntry × DIDDoc), replayEntries p d es = .ok s →
      ∀ j v, j < es.length →
        (prevEntry p es j).versionTime < v →
        (j + 1 = es.length ∨ v < (es.getD (j + 1) default).versionTime) →
        ∃ s', replayEntries p d (setAt es j (fun e => { e with versionTime := v })) = .ok s' ∧
          s'.2 = s.2 := by
  induction es with
  | nil =>
    intro p d s h j v hj hlow hhigh
    exact absurd hj (by simp)
  | cons e es ih =>
    intro p d s h j v hj hlow hhigh
    obtain ⟨h1, h2, h3, hver, hrec⟩ := replayEntries_cons_ok_inv h
    cases j with
    | zero =>
      simp only [prevEntry] at hlow
      have hb : es = [] ∨ v < (es.headD default).versionTime := by
        cases es with
        | nil => exact Or.inl rfl
        | cons e2 es2 =>
          right
          rcases hhigh with hh | hh
          · simp only [List.length_cons] at hh
            omega
          · simpa using hh
      obtain ⟨s', hs', hdoc⟩ := replay_prevTime e v (applyPatch e.patch) es s hrec hb
      refine ⟨s', ?_, hdoc⟩
      simp only [setAt, replayEntries]
      rw [if_pos h1, if_pos hlow, if_pos h3, hver]
      exact hs'
    | succ j' =>
      rw [prevEntry_cons] at hlow
      have hhigh' : j' + 1 = es.length ∨ v < (es.getD (j' + 1) default).versionTime := by
        rcases hhigh with hh | hh
        · left
          simp only [List.length_cons] at hh
          omega
        · right
          simpa using hh
      obtain ⟨s', hs', hdoc⟩ := ih e (applyPatch e.patch) s hrec j' v (by simpa using hj)
        hlow hhigh'
      refine ⟨s', ?_, hdoc⟩
      rw [setAt_cons_succ]
      simp only [replayEntries]
      rw [if_pos h1, if_pos h2, if_pos h3, hver]
      exact hs'

/-- A chain of successful updates advances the resolved version counter by
exactly the number of updates. -/
theorem applyUpdates_resolves (us : List (UpdateOpts × Nat)) :
    ∀ (log log' : List LogEntry) (r : Resolved),
      resolveDID log = .ok r → applyUpdates log us = .ok log' →
      ∃ r', resolveDID log' = .ok r' ∧ r'.meta.versionId = r.meta.versionId + us.length := by
  induction us with
  | nil =>
    intro log log' r hr h
    cases h
    exact ⟨r, hr, by simp⟩
  | cons ot us ih =>
    intro log log' r hr h
    obtain ⟨o, t⟩ := ot
    simp only [applyUpdates] at h
    split at h
    · exact absurd h (by simp)
    next u hu =>
      obtain ⟨hres, _, hvid, _, _, _, _⟩ := updateDID_resolves hr hu
      obtain ⟨r', hr', hv'⟩ := ih u.log log' _ hres h
      refine ⟨r', hr', ?_⟩
      rw [hv']
      show u.meta.versionId + us.length = r.meta.versionId + (us.length + 1)
      rw [hvid]
      omega

/-- C3: a log produced by one `createDID` followed by `N` successful
`updateDID` calls resolves successfully with `meta.versionId = N + 1`. -/
theorem create_then_updates_versionId (o : CreateOpts) (t : Nat)
    (us : List (UpdateOpts × Nat)) (c : DIDResult) (log' : List LogEntry)
    (hc : createDID o t = .ok c) (hu : applyUpdates c.log us = .ok log') :
    ∃ r, resolveDID log' = .ok r ∧ r.meta.versionId = us.length + 1 := by
  obtain ⟨hres, _, hvid, _, _⟩ := createDID_resolves hc
  obtain ⟨r', hr', hv'⟩ := applyUpdates_resolves us c.log log' _ hres hu
  refine ⟨r', hr', ?_⟩
  rw [hv']
  show c.meta.versionId + us.length = us.length + 1
  rw [hvid]
  omega

/-- C4: resolving the log of a fresh `createDID` returns exactly the created
document with the proof field removed. -/
theorem createDID_resolve_roundtrip (o : CreateOpts) (t : Nat) (c : DIDResult)
    (hc : createDID o t = .ok c) :
    ∃ r, resolveDID c.log = .ok r ∧ r.doc = { c.doc with proof := none } :=
  ⟨_, (createDID_resolves hc).1, rfl⟩

/-- C9 helper: replay preserves proof-freeness of the document state. -/
theorem replayEntries_doc_proof (es : List LogEntry) :
    ∀ (p : LogEntry) (d : DIDDoc) (s : LogEntry × DIDDoc),
      replayEntries p d es = .ok s → d.proof = none → s.2.proof = none := by
  induction es with
  | nil =>
    intro p d s h hd
    cases h
    exact hd
  | cons e es ih =>
    intro p d s h hd
    obtain ⟨_, _, _, _, hrec⟩ := replayEntries_cons_ok_inv h
    exact ih e (applyPatch e.patch) s hrec rfl

/-- C9: a resolved document carries no proof, `meta.created` is the genesis
entry's `versionTime`, `meta.updated` the last entry's, and `deactivated`
holds exactly when the final document has no authentication keys. -/
theorem resolveDID_meta_fields (log : List LogEntry) (r : Resolved)
    (h : resolveDID log = .ok r) :
    r.doc.proof = none ∧
    (∀ e0, log.head? = some e0 → r.meta.created = e0.versionTime) ∧
    (∀ le, log.getLast? = some le → r.meta.updated = le.versionTime) ∧
    (r.meta.deactivated = true ↔ authenticationOf r.doc = []) := by
  obtain ⟨e0, rest, d0, s, hlog, hg, hrep, hre⟩ := resolveDID_ok_inv h
  obtain ⟨_, _, _, hd0⟩ := resolveGenesis_ok_inv hg
  subst hlog
  subst hre
  refine ⟨?_, ?_, ?_, ?_⟩
  · exact replayEntries_doc_proof rest e0 d0 s hrep (by rw [hd0]; rfl)
  · intro e0' he
    cases he
    rfl
  · intro le hle
    rw [getLast?_cons_getLastD] at hle
    injection hle with hle'
    rw [← hle', ← replayEntries_last rest e0 d0 s hrep]
  · simp [List.isEmpty_iff]

/-- C5: every valid log satisfies strict version-counter succession and
strict time monotonicity between successive entries, and the resolver
rejects a log breaking the former with `VersionGap` and the latter with
`TimeRegression`. -/
theorem resolveDID_monotonicity (log : List LogEntry) (r : Resolved)
    (h : resolveDID log = .ok r) :
    List.Chain' (fun a b => b.versionId = a.versionId + 1 ∧ a.versionTime < b.versionTime) log ∧
    (∀ k v, k + 1 < log.length → v ≠ (log.getD k default).versionId + 1 →
      resolveDID (setAt log (k + 1) (fun e => { e with versionId := v })) =
        .error .versionGap) ∧
    (∀ k v, k + 1 < log.length → v ≤ (log.getD k default).versionTime →
      resolveDID (setAt log (k + 1) (fun e => { e with versionTime := v })) =
        .error .timeRegression) := by
  obtain ⟨e0, rest, d0, s, hlog, hg, hrep, hre⟩ := resolveDID_ok_inv h
  subst hlog
  refine ⟨?_, ?_, ?_⟩
  · exact replayEntries_chain rest e0 d0 s hrep
  · intro k v hk hv
    rw [setAt_cons_succ]
    refine resolveDID_replay_error hg ?_
    rw [getD_cons_prevEntry] at hv
    exact replay_tamper_versionId rest e0 d0 s hrep k v (by simpa using hk) hv
  · intro k v hk hv
    rw [setAt_cons_succ]
    refine resolveDID_replay_error hg ?_
    rw [getD_cons_prevEntry] at hv
    exact replay_tamper_versionTime rest e0 d0 s hrep k v (by simpa using hk) hv

/-- Every entry hash (the SCID included) renders as 24 multibase
characters. -/
theorem entryHashOf_length (prev : String) (p : Patch) : (entryHashOf prev p).length = 24 :=
  Multibase.multibase_length _ (by rw [SHA256.sha256_length]; omega)

/-- C6 helper: a chain of updates preserves the resolved SCID. -/
theorem applyUpdates_scid (us : List (UpdateOpts × Nat)) :
    ∀ (log log' : List LogEntry) (r : Resolved),
      resolveDID log = .ok r → applyUpdates log us = .ok log' →
      ∀ r', resolveDID log' = .ok r' → r'.doc.scid = r.doc.scid := by
  induction us with
  | nil =>
    intro log log' r hr h r' hr'
    cases h
    rw [hr] at hr'
    injection hr' with he
    rw [← he]
  | cons ot us ih =>
    intro log log' r hr h r' hr'
    obtain ⟨o, t⟩ := ot
    simp only [applyUpdates] at h
    split at h
    · exact absurd h (by simp)
    next u hu =>
      obtain ⟨hres, _, _, _, hscid, _, _⟩ := updateDID_resolves hr hu
      have := ih u.log log' _ hres h r' hr'
      rw [this]
      exact hscid

/-- C6: the SCID is stable.  A fresh DID's SCID is 24 multibase characters;
every successful update keeps the resolved SCID (so a create-then-updates
chain resolves to the genesis SCID); and an update that does not change the
domain returns the same DID string. -/
theorem scid_stability :
    (∀ o t c, createDID o t = .ok c → c.doc.scid.length = 24) ∧
    (∀ log o t u r, updateDID log o t = .ok u → resolveDID log = .ok r →
      u.doc.scid = r.doc.scid) ∧
    (∀ o t us c log' r', createDID o t = .ok c → applyUpdates c.log us = .ok log' →
      resolveDID log' = .ok r' → r'.doc.scid = c.doc.scid) ∧
    (∀ log o t u r, updateDID log o t = .ok u → resolveDID log = .ok r →
      (o.domain = none ∨ o.domain = r.doc.domain) → u.did = r.did) := by
  refine ⟨?_, ?_, ?_, ?_⟩
  · intro o t c hc
    simp only [createDID] at hc
    split at hc
    · exact absurd hc (by simp)
    next k hk =>
      split at hc
      · exact absurd hc (by simp)
      next u hv =>
        cases hc
        exact entryHashOf_length _ _
  · intro log o t u r hu hr
    exact (updateDID_resolves hr hu).2.2.2.2.1
  · intro o t us c log' r' hc hup hr'
    obtain ⟨hres, _, _, _, _⟩ := createDID_resolves hc
    have := applyUpdates_scid us c.log log' _ hres hup r' hr'
    rw [this]
  · intro log o t u r hu hr hd
    exact (updateDID_resolves hr hu).2.2.2.2.2.2 hd

theorem setAt_cons_zero {α : Type} (x : α) (xs : List α) (f : α → α) :
    setAt (x :: xs) 0 f = f x :: xs := rfl

/-- C2 (amended): in a valid log, every stored entry hash, every version
counter (other than that of the sole entry of a single-entry log), every
patch (provided its recomputed chain hash differs — true of any actual
change except a consistent rewrite of the genesis patch's SCID field,
which the resolver's placeholder substitution undoes, and short of a
SHA-256 collision), every signature value, every proof purpose, the proof
options `type`, `cryptosuite` and `created` (provided no authorized key
signs to the stored signature value over the altered options — true of any
actual change short of a SHA-256 collision), and any whole-proof
replacement (covering `verificationMethod`) that no key of the authorizing
previous document state signs to, are tamper-evident: `resolveDID` fails,
fail-stop, and the error carries no document state.  The `versionTime`
fields are NOT tamper-evident: any change that keeps strict monotonicity
with the neighbouring entries still resolves, because the time is covered
by neither the hash chain nor the proofs. -/
theorem resolveDID_tamper_detection (log : List LogEntry) (r : Resolved)
    (h : resolveDID log = .ok r) :
    (∀ k v, k < log.length → v ≠ (log.getD k default).entryHash →
      resolveDID (setAt log k (fun e => { e with entryHash := v })) =
        .error (if k = 0 then .scidMismatch else .hashMismatch)) ∧
    (∀ k v, k < log.length → v ≠ (log.getD k default).versionId →
      (k = 0 → 2 ≤ log.length) →
      resolveDID (setAt log k (fun e => { e with versionId := v })) = .error .versionGap) ∧
    (∀ P, 0 < log.length → genesisHashOf P ≠ (log.getD 0 default).entryHash →
      resolveDID (setAt log 0 (fun e => { e with patch := P })) = .error .scidMismatch) ∧
    (∀ k P, k + 1 < log.length →
      entryHashOf (log.getD k default).entryHash P ≠ (log.getD (k + 1) default).entryHash →
      resolveDID (setAt log (k + 1) (fun e => { e with patch := P })) =
        .error .hashMismatch) ∧
    (∀ k v, k < log.length → v ≠ (log.getD k default).proof.proofValue →
      resolveDID (setAt log k (fun e => { e with proof := { e.proof with proofValue := v } })) =
        .error .proofInvalid) ∧
    (∀ k v, k < log.length →
      (k = 0 ∨ (log.getD (k - 1) default).versionTime < v) →
      (k + 1 = log.length ∨ v < (log.getD (k + 1) default).versionTime) →
      (resolveDID (setAt log k (fun e => { e with versionTime := v }))).isOk = true) ∧
    (∀ v, log.length = 1 →
      (resolveDID (setAt log 0 (fun e => { e with versionId := v }))).isOk = true) ∧
    (∀ k p', k < log.length →
      (∀ vm' ∈ (applyPatch ((log.getD (k - 1) default).patch)).verificationMethod,
        p'.proofValue ≠ Multibase.multibase (ed25519Sign vm'.publicKeyMultibase
          (verifyDataOf (applyPatch ((log.getD k default).patch)) p'))) →
      (resolveDID (setAt log k (fun e => { e with proof := p' })) =
          .error .unknownVerificationMethod ∨
       resolveDID (setAt log k (fun e => { e with proof := p' })) =
          .error .unauthorizedKey ∨
       resolveDID (setAt log k (fun e => { e with proof := p' })) =
          .error .proofInvalid)) ∧
    (∀ k (t' c' : String) (n' : Nat), k < log.length →
      (∀ vm' ∈ (applyPatch ((log.getD (k - 1) default).patch)).verificationMethod,
        (log.getD k default).proof.proofValue ≠
          Multibase.multibase (ed25519Sign vm'.publicKeyMultibase
            (verifyDataOf (applyPatch ((log.getD k default).patch))
              { (log.getD k default).proof with
                  type := t', cryptosuite := c', created := n' }))) →
      resolveDID (setAt log k (fun e =>
          { e with proof :=
              { e.proof with type := t', cryptosuite := c', created := n' } })) =
        .error .proofInvalid) ∧
    (∀ k v, k < log.length → v ≠ (log.getD k default).proof.proofPurpose →
      resolveDID (setAt log k (fun e =>
          { e with proof := { e.proof with proofPurpose := v } })) =
        .error .unauthorizedKey) := by
  obtain ⟨e0, rest, d0, s, hlog, hg, hrep, hre⟩ := resolveDID_ok_inv h
  subst hlog
  refine ⟨?_, ?_, ?_, ?_, ?_, ?_, ?_, ?_, ?_, ?_⟩
  · -- entryHash tampering
    intro k v hk hv
    cases k with
    | zero =>
      rw [setAt_cons_zero, if_pos rfl]
      exact resolveDID_genesis_error
        (resolveGenesis_tamper_entryHash hg v (by simpa using hv))
    | succ j =>
      rw [setAt_cons_succ, if_neg (by omega)]
      exact resolveDID_replay_error hg
        (replay_tamper_entryHash rest e0 d0 s hrep j v (by simpa using hk) (by simpa using hv))
  · -- versionId tampering
    intro k v hk hv hlen
    cases k with
    | zero =>
      rw [setAt_cons_zero]
      have hlen' : 1 ≤ rest.length := by
        have := hlen rfl
        simp only [List.length_cons] at this
        omega
      obtain ⟨e1, rest', hrest⟩ : ∃ e1 rest', rest = e1 :: rest' := by
        cases rest with
        | nil => exact absurd hlen' (by simp)
        | cons e1 rest' => exact ⟨e1, rest', rfl⟩
      subst hrest
      obtain ⟨h1, _, _, _, _⟩ := replayEntries_cons_ok_inv hrep
      refine resolveDID_replay_error ((resolveGenesis_set_versionId e0 v).trans hg) ?_
      simp only [replayEntries]
      rw [if_neg]
      intro he
      simp only [List.getD_cons_zero] at hv
      exact hv (by omega)
    | succ j =>
      rw [setAt_cons_succ]
      refine resolveDID_replay_error hg ?_
      have hv' : v ≠ (prevEntry e0 rest j).versionId + 1 := by
        rw [← replay_vid_step rest e0 d0 s hrep j (by simpa using hk)]
        simpa using hv
      exact replay_tamper_versionId rest e0 d0 s hrep j v (by simpa using hk) hv'
  · -- genesis patch tampering
    intro P _ hv
    rw [setAt_cons_zero]
    exact resolveDID_genesis_error (resolveGenesis_tamper_patch hg P (by simpa using hv))
  · -- later patch tampering
    intro k P hk hv
    rw [setAt_cons_succ]
    refine resolveDID_replay_error hg ?_
    rw [getD_cons_prevEntry] at hv
    exact replay_tamper_patch rest e0 d0 s hrep k P (by simpa using hk) (by simpa using hv)
  · -- proofValue tampering
    intro k v hk hv
    cases k with
    | zero =>
      rw [setAt_cons_zero]
      exact resolveDID_genesis_error
        (resolveGenesis_tamper_proofValue hg v (by simpa using hv))
    | succ j =>
      rw [setAt_cons_succ]
      exact resolveDID_replay_error hg
        (replay_tamper_proofValue rest e0 d0 s hrep j v (by simpa using hk) (by simpa using hv))
  · -- versionTime malleability
    intro k v hk hbelow habove
    cases k with
    | zero =>
      rw [setAt_cons_zero]
      have hb : rest = [] ∨ v < (rest.headD default).versionTime := by
        cases rest with
        | nil => exact Or.inl rfl
        | cons e2 rest2 =>
          right
          rcases habove with hh | hh
          · simp only [List.length_cons] at hh
            omega
          · simpa using hh
      obtain ⟨s', hs', _⟩ := replay_prevTime e0 v d0 rest s hrep hb
      exact resolveDID_replay_ok ((resolveGenesis_set_versionTime e0 v).trans hg) hs'
    | succ j =>
      rw [setAt_cons_succ]
      have hlow : (prevEntry e0 rest j).versionTime < v := by
        rcases hbelow with hh | hh
        · exact absurd hh (by omega)
        · rw [← getD_cons_prevEntry]
          simpa using hh
      have hhigh : j + 1 = rest.length ∨ v < (rest.getD (j + 1) default).versionTime := by
        rcases habove with hh | hh
        · left
          simp only [List.length_cons] at hh
          omega
        · right
          simpa using hh
      obtain ⟨s', hs', _⟩ :=
        replay_tamper_time_ok rest e0 d0 s hrep j v (by simpa using hk) hlow hhigh
      exact resolveDID_replay_ok hg hs'
  · -- single-entry versionId malleability
    intro v hlen
    have hrest : rest = [] := by
      simp only [List.length_cons] at hlen
      exact List.length_eq_zero.mp (by omega)
    subst hrest
    rw [setAt_cons_zero]
    exact resolveDID_replay_ok ((resolveGenesis_set_versionId e0 v).trans hg) rfl
  · -- whole-proof tampering
    intro k p' hk hside
    cases k with
    | zero =>
      rw [setAt_cons_zero]
      simp only [Nat.zero_sub, List.getD_cons_zero] at hside
      rcases resolveGenesis_tamper_proof hg p' hside with hv | hv | hv
      · exact Or.inl (resolveDID_genesis_error hv)
      · exact Or.inr (Or.inl (resolveDID_genesis_error hv))
      · exact Or.inr (Or.inr (resolveDID_genesis_error hv))
    | succ j =>
      rw [setAt_cons_succ]
      have hd0 : d0 = applyPatch e0.patch := (resolveGenesis_ok_inv hg).2.2.2
      rw [Nat.add_sub_cancel, getD_cons_prevEntry] at hside
      simp only [List.getD_cons_succ] at hside
      rcases replay_tamper_proof rest e0 d0 s hrep hd0 j p' (by simpa using hk) hside
        with hv | hv | hv
      · exact Or.inl (resolveDID_replay_error hg hv)
      · exact Or.inr (Or.inl (resolveDID_replay_error hg hv))
      · exact Or.inr (Or.inr (resolveDID_replay_error hg hv))
  · -- proof options tampering
    intro k t' c' n' hk hside
    cases k with
    | zero =>
      rw [setAt_cons_zero]
      simp only [Nat.zero_sub, List.getD_cons_zero] at hside
      exact resolveDID_genesis_error (resolveGenesis_tamper_proofOptions hg t' c' n' hside)
    | succ j =>
      rw [setAt_cons_succ]
      have hd0 : d0 = applyPatch e0.patch := (resolveGenesis_ok_inv hg).2.2.2
      rw [Nat.add_sub_cancel, getD_cons_prevEntry] at hside
      simp only [List.getD_cons_succ] at hside
      exact resolveDID_replay_error hg
        (replay_tamper_proofOptions rest e0 d0 s hrep hd0 j t' c' n'
          (by simpa using hk) hside)
  · -- proofPurpose tampering
    intro k v hk hv
    cases k with
    | zero =>
      rw [setAt_cons_zero]
      exact resolveDID_genesis_error
        (resolveGenesis_tamper_proofPurpose hg v (by simpa using hv))
    | succ j =>
      rw [setAt_cons_succ]
      exact resolveDID_replay_error hg
        (replay_tamper_proofPurpose rest e0 d0 s hrep j v
          (by simpa using hk) (by simpa using hv))

/-- C2 counterexample: the concrete valid single-entry log still resolves
after its entry's `versionTime` is changed — a single-field (single-byte in
the serialized form) tamper that `resolveDID` does not detect. -/
theorem resolveDID_tamper_cex :
    (resolveDID exLog1).isOk = true ∧
    setAt exLog1 0 (fun e => { e with versionTime := 101 }) ≠ exLog1 ∧
    (resolveDID (setAt exLog1 0 (fun e => { e with versionTime := 101 }))).isOk = true := by
  refine ⟨by decide, by decide, by decide⟩

/-- Witness for the amended C2 on the concrete two-entry log: a tampered
stored hash, a tampered signature value, a tampered proof purpose, a
tampered `created` option and a whole-proof replacement are rejected,
while a monotone versionTime change goes undetected. -/
theorem resolveDID_tamper_detection_witness :
    resolveDID (setAt exLog2 1 (fun e => { e with entryHash := "zfake" })) =
      .error ResErr.hashMismatch ∧
    resolveDID (setAt exLog2 1 (fun e => { e with proof := { e.proof with proofValue := "zbad" } })) =
      .error ResErr.proofInvalid ∧
    (resolveDID (setAt exLog2 1 (fun e => { e with versionTime := 300 }))).isOk = true ∧
    resolveDID (setAt exLog2 1 (fun e =>
        { e with proof := { e.proof with proofPurpose := "assertionMethod" } })) =
      .error ResErr.unauthorizedKey ∧
    resolveDID (setAt exLog2 1 (fun e =>
        { e with proof :=
            { e.proof with
                type := "DataIntegrityProof",
                cryptosuite := "eddsa-jcs-2022", created := 201 } })) =
      .error ResErr.proofInvalid ∧
    (resolveDID (setAt exLog2 1 (fun e => { e with proof := exBogusProof }))).isOk = false := by
  obtain ⟨r, hr⟩ := DataIntegrity.exists_ok_of_isOk (x := resolveDID exLog2) (by decide)
  have hT := resolveDID_tamper_detection exLog2 r hr
  refine ⟨?_, ?_, ?_, ?_, ?_, ?_⟩
  · have hout := hT.1 1 "zfake" (by decide) (by decide)
    rw [if_neg (by decide)] at hout
    exact hout
  · exact hT.2.2.2.2.1 1 "zbad" (by decide) (by decide)
  · exact hT.2.2.2.2.2.1 1 300 (by decide) (by decide) (by decide)
  · exact hT.2.2.2.2.2.2.2.2.2 1 "assertionMethod" (by decide) (by decide)
  · exact hT.2.2.2.2.2.2.2.2.1 1 "DataIntegrityProof" "eddsa-jcs-2022" 201
      (by decide) (by decide)
  · rcases hT.2.2.2.2.2.2.2.1 1 exBogusProof (by decide) (by decide) with hv | hv | hv <;>
      rw [hv] <;> rfl

/-- Witness for C3 at a concrete create-then-one-update run. -/
theorem create_then_updates_versionId_witness :
    ((createDID exOpts 100).toOption.bind (fun c =>
      (applyUpdates c.log [(exUpd, 200)]).toOption)).bind (fun lg =>
        (resolveDID lg).toOption.map (fun r => r.meta.versionId)) = some 2 := by
  cases hc : createDID exOpts 100 with
  | error e =>
    have hok : (createDID exOpts 100).isOk = true := by decide
    rw [hc] at hok
    exact absurd hok (by simp [Except.isOk, Except.toBool])
  | ok c =>
    have hceq : (createDID exOpts 100).toOption.getD default = c := by rw [hc]; rfl
    cases hu : applyUpdates c.log [(exUpd, 200)] with
    | error e =>
      have hok : (applyUpdates ((createDID exOpts 100).toOption.getD default).log
          [(exUpd, 200)]).isOk = true := by decide
      rw [hceq, hu] at hok
      exact absurd hok (by simp [Except.isOk, Except.toBool])
    | ok lg =>
      obtain ⟨r, hres, hvid⟩ :=
        create_then_updates_versionId exOpts 100 [(exUpd, 200)] c lg hc hu
      show (applyUpdates c.log [(exUpd, 200)]).toOption.bind (fun lg =>
        Option.map (fun r => r.meta.versionId) (resolveDID lg).toOption) = some 2
      rw [hu]
      show Option.map (fun r => r.meta.versionId) (resolveDID lg).toOption = some 2
      rw [hres]
      show some r.meta.versionId = some 2
      rw [hvid]
      rfl

/-- Witness for C4 at a concrete creation. -/
theorem createDID_resolve_roundtrip_witness :
    (createDID exOpts 100).toOption.map (fun c =>
      (resolveDID c.log).toOption.map (fun r =>
        decide (r.doc = { c.doc with proof := none }))) = some (some true) := by
  cases hc : createDID exOpts 100 with
  | error e =>
    have hok : (createDID exOpts 100).isOk = true := by decide
    rw [hc] at hok
    exact absurd hok (by simp [Except.isOk, Except.toBool])
  | ok c =>
    obtain ⟨r, hres, hdoc⟩ := createDID_resolve_roundtrip exOpts 100 c hc
    show some ((resolveDID c.log).toOption.map (fun r =>
      decide (r.doc = { c.doc with proof := none }))) = some (some true)
    rw [hres]
    show some (some (decide (r.doc = { c.doc with proof := none }))) = some (some true)
    rw [hdoc]
    simp

/-- Witness for C5 on the concrete two-entry log: its chain is certified
and the two tampers are rejected with the named errors. -/
theorem resolveDID_monotonicity_witness :
    resolveDID (setAt exLog2 1 (fun e => { e with versionId := 7 })) =
      .error ResErr.versionGap ∧
    resolveDID (setAt exLog2 1 (fun e => { e with versionTime := 50 })) =
      .error ResErr.timeRegression := by
  obtain ⟨r, hr⟩ := DataIntegrity.exists_ok_of_isOk (x := resolveDID exLog2) (by decide)
  have hm := resolveDID_monotonicity exLog2 r hr
  exact ⟨hm.2.1 0 7 (by decide) (by decide), hm.2.2 0 50 (by decide) (by decide)⟩

/-- Witness for C6 at a concrete create and domain-preserving update. -/
theorem scid_stability_witness :
    (createDID exOpts 100).toOption.map (fun c => decide (c.doc.scid.length = 24)) =
      some true ∧
    ((createDID exOpts 100).toOption.bind (fun c =>
      (updateDID c.log exUpd 200).toOption.map (fun u =>
        decide (u.did = c.did) && decide (u.doc.scid = c.doc.scid)))) = some true := by
  cases hc : createDID exOpts 100 with
  | error e =>
    have hok : (createDID exOpts 100).isOk = true := by decide
    rw [hc] at hok
    exact absurd hok (by simp [Except.isOk, Except.toBool])
  | ok c =>
    have hceq : (createDID exOpts 100).toOption.getD default = c := by rw [hc]; rfl
    obtain ⟨hres, _, _, _, _⟩ := createDID_resolves hc
    constructor
    · show some (decide (c.doc.scid.length = 24)) = some true
      rw [scid_stability.1 exOpts 100 c hc]
      simp
    · cases hu : updateDID c.log exUpd 200 with
      | error e =>
        have hok : (updateDID ((createDID exOpts 100).toOption.getD default).log
            exUpd 200).isOk = true := by decide
        rw [hceq, hu] at hok
        exact absurd hok (by simp [Except.isOk, Except.toBool])
      | ok u =>
        have hdid := scid_stability.2.2.2 c.log exUpd 200 u _ hu hres (Or.inl rfl)
        have hscid := scid_stability.2.1 c.log exUpd 200 u _ hu hres
        simp [Except.toOption, hu, hdid, hscid]

/-- Witness for C9 on the concrete two-entry log. -/
theorem resolveDID_meta_fields_witness :
    (resolveDID exLog2).toOption.map (fun r =>
      (r.doc.proof, r.meta.created, r.meta.updated)) = some (none, 100, 200) := by
  obtain ⟨r, hr⟩ := DataIntegrity.exists_ok_of_isOk (x := resolveDID exLog2) (by decide)
  have hm := resolveDID_meta_fields exLog2 r hr
  rw [hr]
  show some (r.doc.proof, r.meta.created, r.meta.updated) = some (none, 100, 200)
  rw [hm.1, hm.2.1 (exLog2.headD default) (by decide),
      hm.2.2.1 (exLog2.getLastD default) (by decide)]
  decide

end DIDMethod
